import Mathlib

/-!
Verification of the mathllm computer-algebra core (C++, `src/cpp`) against its
natural-language specification.

The development shallowly embeds the expression AST and the analyses that the
claims touch:

* the canonical expression tree (SymEngine's `Basic` hierarchy as used by the
  core) with structural equality and the `has_symbol` query;
* the smart constructors / canonicalization and the infix parser (these live in
  the external SymEngine library, so they are modelled from the spec, §3, §4.A
  and §4.B);
* the pattern integrator, `diff` and `verify_equal` wrappers
  (`src/cpp/src/symbolic.cpp`);
* the numeric evaluator and `probe_equal` (`src/cpp/src/numeric.cpp`);
* the RK4 driver `solve_ivp` (`src/cpp/src/ode.cpp`);
* the dimensional analyzer and `unit_check` (`src/cpp/src/units.cpp`).

IEEE doubles are modelled as exact rationals; the platform math functions
(`sin`, `cos`, `tan`, `log`, non-integer `pow`) and the PRNG stream drawn from
`std::mt19937` + `std::uniform_real_distribution` are abstracted as parameters,
since their bit-level behaviour is outside the sources.

All executable arithmetic on `ℚ` is phrased through `mkRat`/`Rat.num`/`Rat.den`
so that concrete runs reduce inside the kernel; bridge lemmas connect these
operations to Mathlib's field structure for the symbolic proofs.
-/

namespace MathLLM

/-! ### Rational helpers (kernel-reducible arithmetic) -/

/-- Multiplication on `ℚ` via `mkRat`; equal to `a * b` (see `qmul_eq`). -/
def qmul (a b : ℚ) : ℚ := mkRat (a.num * b.num) (a.den * b.den)

/-- Addition on `ℚ` via `mkRat`; equal to `a + b` (see `qadd_eq`). -/
def qadd (a b : ℚ) : ℚ := mkRat (a.num * b.den + b.num * a.den) (a.den * b.den)

/-- Negation on `ℚ`. -/
def qneg (a : ℚ) : ℚ := -a

/-- Subtraction on `ℚ`; equal to `a - b` (see `qsub_eq`). -/
def qsub (a b : ℚ) : ℚ := qadd a (qneg b)

/-- Inverse on `ℚ` via `mkRat`; equal to `a⁻¹` (see `qinv_eq`). -/
def qinv (a : ℚ) : ℚ :=
  mkRat (if a.num < 0 then -(a.den : ℤ) else (a.den : ℤ)) a.num.natAbs

/-- Division on `ℚ`; equal to `a / b` (see `qdiv_eq`). -/
def qdiv (a b : ℚ) : ℚ := qmul a (qinv b)

/-- Absolute value on `ℚ`, as `std::abs`; equal to `|a|` (see `qabs_eq`). -/
def qabs (a : ℚ) : ℚ := if a < 0 then -a else a

/-- Maximum on `ℚ`, as `std::max`; equal to `max a b` (see `qmax_eq`). -/
def qmax (a b : ℚ) : ℚ := if a < b then b else a

/-- Natural power on `ℚ` by iterated `qmul`. -/
def qpowNat (q : ℚ) : ℕ → ℚ
  | 0 => 1
  | k + 1 => qmul q (qpowNat q k)

/-- Integer power on `ℚ` (inverse of the natural power for negative exponents),
matching IEEE `pow` on integer exponents (in particular `0 ^ 0 = 1`). -/
def qpowInt (q : ℚ) : ℤ → ℚ
  | .ofNat k => qpowNat q k
  | .negSucc k => qinv (qpowNat q (k + 1))

theorem qmul_eq (a b : ℚ) : qmul a b = a * b := by
  conv_rhs => rw [← Rat.num_divInt_den a, ← Rat.num_divInt_den b]
  rw [qmul, Rat.mkRat_eq_divInt, Int.natCast_mul, Rat.divInt_mul_divInt']

theorem qadd_eq (a b : ℚ) : qadd a b = a + b := by
  have ha : (a.den : ℤ) ≠ 0 := Int.natCast_ne_zero.2 a.den_nz
  have hb : (b.den : ℤ) ≠ 0 := Int.natCast_ne_zero.2 b.den_nz
  conv_rhs => rw [← Rat.num_divInt_den a, ← Rat.num_divInt_den b]
  rw [qadd, Rat.mkRat_eq_divInt, Int.natCast_mul,
    Rat.divInt_add_divInt _ _ ha hb]

theorem qneg_eq (a : ℚ) : qneg a = -a := rfl

theorem qsub_eq (a b : ℚ) : qsub a b = a - b := by
  rw [qsub, qadd_eq, qneg_eq, sub_eq_add_neg]

theorem qinv_eq (a : ℚ) : qinv a = a⁻¹ := by
  rw [qinv, Rat.inv_def', Rat.mkRat_eq_divInt]
  by_cases h : a.num < 0
  · rw [if_pos h]
    have : (a.num.natAbs : ℤ) = -a.num := Int.ofNat_natAbs_of_nonpos (le_of_lt h)
    rw [this, Rat.divInt_neg, neg_neg]
  · rw [if_neg h]
    rw [Int.natAbs_of_nonneg (not_lt.1 h)]

theorem qdiv_eq (a b : ℚ) : qdiv a b = a / b := by
  rw [qdiv, qmul_eq, qinv_eq, div_eq_mul_inv]

theorem qabs_eq (a : ℚ) : qabs a = |a| := by
  rw [qabs]
  by_cases h : a < 0
  · rw [if_pos h, abs_of_neg h]
  · rw [if_neg h, abs_of_nonneg (not_lt.1 h)]

theorem qmax_eq (a b : ℚ) : qmax a b = max a b := by
  rw [qmax]
  by_cases h : a < b
  · rw [if_pos h, max_eq_right (le_of_lt h)]
  · rw [if_neg h, max_eq_left (not_lt.1 h)]

theorem qpowNat_eq (q : ℚ) : ∀ k : ℕ, qpowNat q k = q ^ k
  | 0 => rfl
  | k + 1 => by rw [qpowNat, qpowNat_eq q k, qmul_eq, pow_succ, mul_comm]

theorem qpowInt_eq (q : ℚ) : ∀ n : ℤ, qpowInt q n = q ^ n
  | .ofNat k => by rw [qpowInt, qpowNat_eq, Int.ofNat_eq_natCast, zpow_natCast]
  | .negSucc k => by rw [qpowInt, qinv_eq, qpowNat_eq, zpow_negSucc]

/-! ### Dimensions (`include/mathllm/units.h`, `struct Dimension`) -/

/-- The 7-vector of SI base-dimension exponents, from `struct Dimension` in
`include/mathllm/units.h` (fields `length, mass, time, current, temperature,
amount, luminosity`). -/
structure Dimension where
  length : ℤ
  mass : ℤ
  time : ℤ
  current : ℤ
  temperature : ℤ
  amount : ℤ
  luminosity : ℤ
  deriving DecidableEq

/-- The default-constructed (all-zero, dimensionless) dimension. -/
def Dimension.zero : Dimension := ⟨0, 0, 0, 0, 0, 0, 0⟩

/-- Model of `Dimension::is_dimensionless`. -/
def Dimension.isDimensionless (d : Dimension) : Bool :=
  d.length = 0 ∧ d.mass = 0 ∧ d.time = 0 ∧ d.current = 0 ∧
    d.temperature = 0 ∧ d.amount = 0 ∧ d.luminosity = 0

/-- Model of `Dimension::operator+` (componentwise sum). -/
def Dimension.add (a b : Dimension) : Dimension :=
  ⟨a.length + b.length, a.mass + b.mass, a.time + b.time, a.current + b.current,
    a.temperature + b.temperature, a.amount + b.amount, a.luminosity + b.luminosity⟩

/-- Model of `Dimension::operator*` with an integer scalar. -/
def Dimension.smul (a : Dimension) (s : ℤ) : Dimension :=
  ⟨a.length * s, a.mass * s, a.time * s, a.current * s,
    a.temperature * s, a.amount * s, a.luminosity * s⟩

/-! ### The expression AST

The core stores expressions as SymEngine `Basic` trees: integer and rational
literals, symbols, named constants (`e`, `pi`), flattened n-ary `Add` and `Mul`
nodes, binary `Pow`, and one-argument elementary functions.  This mirrors the
data model of spec §3. -/

/-- Canonical expression node (SymEngine `Basic`).  `funcE` covers the
one-argument elementary functions (`sin`, `cos`, `tan`, `log`); `exp x` is
represented as `powE (constE "e") x`, exactly as SymEngine does. -/
inductive Expr where
  | intE (n : ℤ)
  | ratE (q : ℚ)
  | symE (s : String)
  | constE (c : String)
  | addE (args : List Expr)
  | mulE (args : List Expr)
  | powE (base exp : Expr)
  | funcE (f : String) (arg : Expr)

mutual

/-- Structural equality on expressions (SymEngine `eq`). -/
def Expr.beq : Expr → Expr → Bool
  | .intE n, .intE m => n = m
  | .ratE p, .ratE q => p = q
  | .symE s, .symE t => s = t
  | .constE s, .constE t => s = t
  | .addE l, .addE m => Expr.beqL l m
  | .mulE l, .mulE m => Expr.beqL l m
  | .powE a b, .powE c d => Expr.beq a c && Expr.beq b d
  | .funcE f a, .funcE g b => f = g && Expr.beq a b
  | _, _ => false

/-- Structural equality on argument lists. -/
def Expr.beqL : List Expr → List Expr → Bool
  | [], [] => true
  | a :: as, b :: bs => Expr.beq a b && Expr.beqL as bs
  | _, _ => false

end

mutual

theorem Expr.beq_refl : ∀ a : Expr, Expr.beq a a = true
  | .intE _ => by simp [Expr.beq]
  | .ratE _ => by simp [Expr.beq]
  | .symE _ => by simp [Expr.beq]
  | .constE _ => by simp [Expr.beq]
  | .addE l => by simp [Expr.beq, Expr.beqL_refl l]
  | .mulE l => by simp [Expr.beq, Expr.beqL_refl l]
  | .powE a b => by simp [Expr.beq, Expr.beq_refl a, Expr.beq_refl b]
  | .funcE _ a => by simp [Expr.beq, Expr.beq_refl a]

theorem Expr.beqL_refl : ∀ l : List Expr, Expr.beqL l l = true
  | [] => by simp [Expr.beqL]
  | e :: es => by simp [Expr.beqL, Expr.beq_refl e, Expr.beqL_refl es]

end

mutual

theorem Expr.beq_eq : ∀ a b : Expr, Expr.beq a b = true → a = b
  | .intE _, .intE _ => by simp [Expr.beq]
  | .ratE _, .ratE _ => by simp [Expr.beq]
  | .symE _, .symE _ => by simp [Expr.beq]
  | .constE _, .constE _ => by simp [Expr.beq]
  | .addE l, .addE m => by
    intro h
    simp only [Expr.beq] at h
    exact congrArg Expr.addE (Expr.beqL_eq l m h)
  | .mulE l, .mulE m => by
    intro h
    simp only [Expr.beq] at h
    exact congrArg Expr.mulE (Expr.beqL_eq l m h)
  | .powE a b, .powE c d => by
    intro h
    simp only [Expr.beq, Bool.and_eq_true] at h
    rw [Expr.beq_eq a c h.1, Expr.beq_eq b d h.2]
  | .funcE f a, .funcE g b => by
    intro h
    simp only [Expr.beq, Bool.and_eq_true, decide_eq_true_eq] at h
    rw [h.1, Expr.beq_eq a b h.2]
  | .intE _, .ratE _ => by simp [Expr.beq]
  | .intE _, .symE _ => by simp [Expr.beq]
  | .intE _, .constE _ => by simp [Expr.beq]
  | .intE _, .addE _ => by simp [Expr.beq]
  | .intE _, .mulE _ => by simp [Expr.beq]
  | .intE _, .powE _ _ => by simp [Expr.beq]
  | .intE _, .funcE _ _ => by simp [Expr.beq]
  | .ratE _, .intE _ => by simp [Expr.beq]
  | .ratE _, .symE _ => by simp [Expr.beq]
  | .ratE _, .constE _ => by simp [Expr.beq]
  | .ratE _, .addE _ => by simp [Expr.beq]
  | .ratE _, .mulE _ => by simp [Expr.beq]
  | .ratE _, .powE _ _ => by simp [Expr.beq]
  | .ratE _, .funcE _ _ => by simp [Expr.beq]
  | .symE _, .intE _ => by simp [Expr.beq]
  | .symE _, .ratE _ => by simp [Expr.beq]
  | .symE _, .constE _ => by simp [Expr.beq]
  | .symE _, .addE _ => by simp [Expr.beq]
  | .symE _, .mulE _ => by simp [Expr.beq]
  | .symE _, .powE _ _ => by simp [Expr.beq]
  | .symE _, .funcE _ _ => by simp [Expr.beq]
  | .constE _, .intE _ => by simp [Expr.beq]
  | .constE _, .ratE _ => by simp [Expr.beq]
  | .constE _, .symE _ => by simp [Expr.beq]
  | .constE _, .addE _ => by simp [Expr.beq]
  | .constE _, .mulE _ => by simp [Expr.beq]
  | .constE _, .powE _ _ => by simp [Expr.beq]
  | .constE _, .funcE _ _ => by simp [Expr.beq]
  | .addE _, .intE _ => by simp [Expr.beq]
  | .addE _, .ratE _ => by simp [Expr.beq]
  | .addE _, .symE _ => by simp [Expr.beq]
  | .addE _, .constE _ => by simp [Expr.beq]
  | .addE _, .mulE _ => by simp [Expr.beq]
  | .addE _, .powE _ _ => by simp [Expr.beq]
  | .addE _, .funcE _ _ => by simp [Expr.beq]
  | .mulE _, .intE _ => by simp [Expr.beq]
  | .mulE _, .ratE _ => by simp [Expr.beq]
  | .mulE _, .symE _ => by simp [Expr.beq]
  | .mulE _, .constE _ => by simp [Expr.beq]
  | .mulE _, .addE _ => by simp [Expr.beq]
  | .mulE _, .powE _ _ => by simp [Expr.beq]
  | .mulE _, .funcE _ _ => by simp [Expr.beq]
  | .powE _ _, .intE _ => by simp [Expr.beq]
  | .powE _ _, .ratE _ => by simp [Expr.beq]
  | .powE _ _, .symE _ => by simp [Expr.beq]
  | .powE _ _, .constE _ => by simp [Expr.beq]
  | .powE _ _, .addE _ => by simp [Expr.beq]
  | .powE _ _, .mulE _ => by simp [Expr.beq]
  | .powE _ _, .funcE _ _ => by simp [Expr.beq]
  | .funcE _ _, .intE _ => by simp [Expr.beq]
  | .funcE _ _, .ratE _ => by simp [Expr.beq]
  | .funcE _ _, .symE _ => by simp [Expr.beq]
  | .funcE _ _, .constE _ => by simp [Expr.beq]
  | .funcE _ _, .addE _ => by simp [Expr.beq]
  | .funcE _ _, .mulE _ => by simp [Expr.beq]
  | .funcE _ _, .powE _ _ => by simp [Expr.beq]

theorem Expr.beqL_eq : ∀ l m : List Expr, Expr.beqL l m = true → l = m
  | [], [] => by simp
  | a :: as, b :: bs => by
    intro h
    simp only [Expr.beqL, Bool.and_eq_true] at h
    rw [Expr.beq_eq a b h.1, Expr.beqL_eq as bs h.2]
  | [], _ :: _ => by simp [Expr.beqL]
  | _ :: _, [] => by simp [Expr.beqL]

end

instance : DecidableEq Expr := fun a b =>
  decidable_of_iff (Expr.beq a b = true)
    ⟨Expr.beq_eq a b, fun h => h ▸ Expr.beq_refl a⟩

instance {ε α : Type} [DecidableEq ε] [DecidableEq α] : DecidableEq (Except ε α)
  | .ok a, .ok b =>
    if h : a = b then .isTrue (by rw [h])
    else .isFalse (by intro hc; cases hc; exact h rfl)
  | .error a, .error b =>
    if h : a = b then .isTrue (by rw [h])
    else .isFalse (by intro hc; cases hc; exact h rfl)
  | .ok _, .error _ => .isFalse (by intro hc; cases hc)
  | .error _, .ok _ => .isFalse (by intro hc; cases hc)

mutual

/-- Model of `SymEngine::has_symbol`: does the symbol named `v` occur in the tree? -/
def has_symbol (v : String) : Expr → Bool
  | .intE _ => false
  | .ratE _ => false
  | .symE s => s = v
  | .constE _ => false
  | .addE l => has_symbolL v l
  | .mulE l => has_symbolL v l
  | .powE b e => has_symbol v b || has_symbol v e
  | .funcE _ a => has_symbol v a

/-- The `has_symbol` query over an argument list. -/
def has_symbolL (v : String) : List Expr → Bool
  | [] => false
  | e :: es => has_symbol v e || has_symbolL v es

end

/-! ### Smart constructors (canonicalization)

Canonicalization happens inside SymEngine (external library code); the
constructors below are modelled from the spec, §3 (data model invariants) and
§4.A: `Add`/`Mul` flatten nested nodes and fold all numeric literal children
into a single literal child positioned first, `Add` merges equal terms by
summing their coefficients, `Mul` absorbs zero, `Pow` applies the
`x^0 → 1`, `x^1 → x`, `1^e → 1` shortcuts and folds literal powers, a
single-child `Add`/`Mul` collapses to that child, division is
`Mul(..., Pow(d, -1))` and subtraction is `Add(..., Mul(-1, t))`. -/

/-- Numeric value of a literal (`Integer` or `Rational`) node. -/
def numOf : Expr → Option ℚ
  | .intE n => some (mkRat n 1)
  | .ratE q => some q
  | _ => none

/-- Modelled from the spec: canonical numeric literal — integral values are
`Integer` nodes, all others `Rational` nodes. -/
def numE (q : ℚ) : Expr := if q.den = 1 then .intE q.num else .ratE q

/-- A product from a factor list that may have collapsed to one element. -/
def mulUnit : List Expr → Expr
  | [e] => e
  | l => .mulE l

/-- Split a canonical term into numeric coefficient and symbolic part
(`Add` stores terms as coefficient × monomial). -/
def splitTerm (e : Expr) : ℚ × Option Expr :=
  match e with
  | .intE n => (mkRat n 1, none)
  | .ratE q => (q, none)
  | .mulE (x :: rest) =>
    match numOf x with
    | some c => (c, some (mulUnit rest))
    | none => (1, some (.mulE (x :: rest)))
  | e => (1, some e)

/-- Merge a term with coefficient into a coefficient-keyed term list. -/
def insertTerm (t : Expr) (q : ℚ) : List (Expr × ℚ) → List (Expr × ℚ)
  | [] => [(t, q)]
  | (t', q') :: rest =>
    if Expr.beq t' t then (t', qadd q' q) :: rest
    else (t', q') :: insertTerm t q rest

/-- Rebuild a term from coefficient and symbolic part. -/
def scaleTerm (q : ℚ) (t : Expr) : Expr :=
  if q = 1 then t
  else
    match t with
    | .mulE l => .mulE (numE q :: l)
    | t => .mulE [numE q, t]

/-- Flatten nested `Add` children (spec: no `Add` contains an `Add` child). -/
def flattenAdd (args : List Expr) : List Expr :=
  args.foldr (fun e acc => match e with | .addE l => l ++ acc | e => e :: acc) []

/-- Modelled from the spec: the canonical `Add` constructor (SymEngine `add`):
flatten, collect terms by symbolic part summing coefficients, fold numeric
children into one leading literal, drop vanished terms, collapse. -/
def addC (args : List Expr) : Expr :=
  let collect := (flattenAdd args).foldl
    (fun (st : ℚ × List (Expr × ℚ)) e =>
      let s := splitTerm e
      match s.2 with
      | none => (qadd st.1 s.1, st.2)
      | some t => (st.1, insertTerm t s.1 st.2))
    (0, [])
  let terms := collect.2.foldr
    (fun (p : Expr × ℚ) acc => if p.2 = 0 then acc else scaleTerm p.2 p.1 :: acc) []
  let parts := if collect.1 = 0 then terms else numE collect.1 :: terms
  match parts with
  | [] => .intE 0
  | [e] => e
  | l => .addE l

/-- Flatten nested `Mul` children (spec: no `Mul` contains a `Mul` child). -/
def flattenMul (args : List Expr) : List Expr :=
  args.foldr (fun e acc => match e with | .mulE l => l ++ acc | e => e :: acc) []

/-- Modelled from the spec: the canonical `Mul` constructor (SymEngine `mul`):
flatten, fold numeric children into one leading literal coefficient, absorb
zero, drop a unit coefficient, collapse a single factor. -/
def mulC (args : List Expr) : Expr :=
  let collect := (flattenMul args).foldl
    (fun (st : ℚ × List Expr) e =>
      match numOf e with
      | some q => (qmul st.1 q, st.2)
      | none => (st.1, st.2 ++ [e]))
    (1, [])
  if collect.1 = 0 then .intE 0
  else
    match (if collect.1 = 1 then collect.2 else numE collect.1 :: collect.2) with
    | [] => .intE 1
    | [e] => e
    | l => .mulE l

/-- Modelled from the spec: the canonical `Pow` constructor (SymEngine `pow`):
`x^0 → 1`, `x^1 → x`, `1^e → 1`, and literal bases with integer literal
exponents fold numerically (`0` to a negative power is left symbolic, as
SymEngine produces a non-finite object there). -/
def powC (b e : Expr) : Expr :=
  match numOf e with
  | some q =>
    if q = 0 then .intE 1
    else if q = 1 then b
    else
      match numOf b with
      | some bq =>
        if q.den = 1 then
          if bq = 0 ∧ q.num < 0 then .powE b e else numE (qpowInt bq q.num)
        else .powE b e
      | none => if Expr.beq b (.intE 1) then .intE 1 else .powE b e
  | none => if Expr.beq b (.intE 1) then .intE 1 else .powE b e

/-- Binary canonical sum. -/
def add2C (a b : Expr) : Expr := addC [a, b]

/-- Binary canonical product. -/
def mul2C (a b : Expr) : Expr := mulC [a, b]

/-- Negation as `Mul(-1, e)` (spec §3). -/
def negC (e : Expr) : Expr := mulC [.intE (-1), e]

/-- Subtraction as `Add(a, Mul(-1, b))` (spec §3). -/
def subC (a b : Expr) : Expr := addC [a, negC b]

/-- Division as `Mul(a, Pow(b, -1))` (spec §3). -/
def divC (a b : Expr) : Expr := mulC [a, powC b (.intE (-1))]

/-! ### Lexer and parser

The core delegates parsing to `SymEngine::parse` (external library code); the
lexer/parser below is modelled from the spec, §4.B: integers, identifiers
`[A-Za-z_][A-Za-z_0-9]*`, operators `+ - * / ^ ( ) ,`, precedence lowest to
highest `+ -` (left), `* /` (left), unary `-`, `^` (right); identifiers
followed by `(` are function calls and only `sin, cos, tan, log, exp` are
recognized; `exp(x)` and the constants `e`/`pi` become the canonical nodes
SymEngine uses (`Pow(e, x)`, `Constant`); empty input or an unexpected token
is a parse failure. -/

/-- Tokens of the infix language. -/
inductive Tok where
  | tInt (n : ℕ)
  | tIdent (s : String)
  | tOp (c : Char)
  deriving DecidableEq

/-- ASCII digit test. -/
def isDigitC (c : Char) : Bool := '0' ≤ c ∧ c ≤ '9'

/-- ASCII letter-or-underscore test. -/
def isAlphaC (c : Char) : Bool :=
  ('a' ≤ c ∧ c ≤ 'z') ∨ ('A' ≤ c ∧ c ≤ 'Z') ∨ c = '_'

/-- Identifier-continuation character test. -/
def isAlnumC (c : Char) : Bool := isAlphaC c ∨ isDigitC c

/-- Lex a run of digits into a numeral. -/
def lexNum (acc : ℕ) : List Char → ℕ × List Char
  | [] => (acc, [])
  | c :: cs =>
    if isDigitC c then lexNum (acc * 10 + (c.toNat - '0'.toNat)) cs
    else (acc, c :: cs)

/-- Lex a run of identifier characters. -/
def lexIdent (acc : List Char) : List Char → String × List Char
  | [] => (String.mk acc.reverse, [])
  | c :: cs =>
    if isAlnumC c then lexIdent (c :: acc) cs
    else (String.mk acc.reverse, c :: cs)

/-- Tokenizer (fuel-indexed; one unit of fuel per emitted token or skipped
blank, so `chars.length + 1` always suffices). -/
def tokenize : ℕ → List Char → Except String (List Tok)
  | 0, _ => .error "tokenizer out of fuel"
  | _, [] => .ok []
  | fuel + 1, c :: cs =>
    if c = ' ' ∨ c = '\t' ∨ c = '\n' ∨ c = '\r' then tokenize fuel cs
    else if isDigitC c then
      match lexNum 0 (c :: cs) with
      | (n, rest) =>
        match tokenize fuel rest with
        | .ok ts => .ok (.tInt n :: ts)
        | .error e => .error e
    else if isAlphaC c then
      match lexIdent [] (c :: cs) with
      | (s, rest) =>
        match tokenize fuel rest with
        | .ok ts => .ok (.tIdent s :: ts)
        | .error e => .error e
    else if c = '+' ∨ c = '-' ∨ c = '*' ∨ c = '/' ∨ c = '^' ∨ c = '(' ∨ c = ')' ∨ c = ',' then
      match tokenize fuel cs with
      | .ok ts => .ok (.tOp c :: ts)
      | .error e => .error e
    else .error ("unexpected character " ++ String.mk [c])

mutual

/-- Parse a sum (lowest precedence level). -/
def parseSum : ℕ → List Tok → Except String (Expr × List Tok)
  | 0, _ => .error "parser out of fuel"
  | fuel + 1, ts =>
    match parseProd fuel ts with
    | .error e => .error e
    | .ok (a, rest) => parseSumTail fuel a rest

/-- Left-associated `+`/`-` chain. -/
def parseSumTail : ℕ → Expr → List Tok → Except String (Expr × List Tok)
  | 0, _, _ => .error "parser out of fuel"
  | fuel + 1, acc, ts =>
    match ts with
    | .tOp '+' :: rest =>
      match parseProd fuel rest with
      | .error e => .error e
      | .ok (b, rest') => parseSumTail fuel (add2C acc b) rest'
    | .tOp '-' :: rest =>
      match parseProd fuel rest with
      | .error e => .error e
      | .ok (b, rest') => parseSumTail fuel (subC acc b) rest'
    | _ => .ok (acc, ts)

/-- Parse a product. -/
def parseProd : ℕ → List Tok → Except String (Expr × List Tok)
  | 0, _ => .error "parser out of fuel"
  | fuel + 1, ts =>
    match parseUnary fuel ts with
    | .error e => .error e
    | .ok (a, rest) => parseProdTail fuel a rest

/-- Left-associated `*`/`/` chain. -/
def parseProdTail : ℕ → Expr → List Tok → Except String (Expr × List Tok)
  | 0, _, _ => .error "parser out of fuel"
  | fuel + 1, acc, ts =>
    match ts with
    | .tOp '*' :: rest =>
      match parseUnary fuel rest with
      | .error e => .error e
      | .ok (b, rest') => parseProdTail fuel (mul2C acc b) rest'
    | .tOp '/' :: rest =>
      match parseUnary fuel rest with
      | .error e => .error e
      | .ok (b, rest') => parseProdTail fuel (divC acc b) rest'
    | _ => .ok (acc, ts)

/-- Unary minus (binds looser than `^`). -/
def parseUnary : ℕ → List Tok → Except String (Expr × List Tok)
  | 0, _ => .error "parser out of fuel"
  | fuel + 1, ts =>
    match ts with
    | .tOp '-' :: rest =>
      match parseUnary fuel rest with
      | .error e => .error e
      | .ok (a, rest') => .ok (negC a, rest')
    | _ => parsePow fuel ts

/-- Right-associative exponentiation. -/
def parsePow : ℕ → List Tok → Except String (Expr × List Tok)
  | 0, _ => .error "parser out of fuel"
  | fuel + 1, ts =>
    match parseAtom fuel ts with
    | .error e => .error e
    | .ok (a, rest) =>
      match rest with
      | .tOp '^' :: rest' =>
        match parseUnary fuel rest' with
        | .error e => .error e
        | .ok (b, rest'') => .ok (powC a b, rest'')
      | _ => .ok (a, rest)

/-- Atoms: numerals, identifiers, function calls, parenthesised sums. -/
def parseAtom : ℕ → List Tok → Except String (Expr × List Tok)
  | 0, _ => .error "parser out of fuel"
  | fuel + 1, ts =>
    match ts with
    | .tInt n :: rest => .ok (.intE (Int.ofNat n), rest)
    | .tIdent s :: .tOp '(' :: rest =>
      if s = "sin" ∨ s = "cos" ∨ s = "tan" ∨ s = "log" ∨ s = "exp" then
        match parseSum fuel rest with
        | .error e => .error e
        | .ok (a, rest') =>
          match rest' with
          | .tOp ')' :: rest'' =>
            .ok (if s = "exp" then powC (.constE "e") a else .funcE s a, rest'')
          | _ => .error "expected closing parenthesis"
      else .error ("unknown function " ++ s)
    | .tIdent s :: rest =>
      .ok (if s = "pi" then .constE "pi"
           else if s = "e" ∨ s = "E" then .constE "e"
           else .symE s, rest)
    | .tOp '(' :: rest =>
      match parseSum fuel rest with
      | .error e => .error e
      | .ok (a, rest') =>
        match rest' with
        | .tOp ')' :: rest'' => .ok (a, rest'')
        | _ => .error "expected closing parenthesis"
    | _ => .error "unexpected token"

end

/-- Modelled from the spec: `SymEngine::parse` (external) — tokenize then
parse the full token list into a canonical AST; empty input and trailing
garbage fail. -/
def parse (s : String) : Except String Expr :=
  match tokenize (s.length + 1) s.toList with
  | .error e => .error e
  | .ok [] => .error "empty input"
  | .ok ts =>
    match parseSum (8 * (ts.length + 1)) ts with
    | .error e => .error e
    | .ok (a, []) => .ok a
    | .ok (_, _ :: _) => .error "unexpected trailing tokens"

/-! ### Errors (`include/mathllm/errors.hpp`) -/

/-- The error taxonomy of `include/mathllm/errors.hpp`.  Each value carries
the message handed to the exception constructor; the constructor's `what()`
additionally prepends the kind name, which no claim depends on. -/
inductive MErr where
  | parseE (msg : String)
  | symbolicE (msg : String)
  | numericE (msg : String)
  | verifierE (msg : String)
  | odeErrE (msg : String)
  | unitE (msg : String)
  deriving DecidableEq

/-! ### Expansion and the zero test (spec §4.G; `SymEngine::expand` and
`SymEngine::is_zero` are external library code, modelled from the spec) -/

/-- Addend list of an expression (an `Add`'s children, else a singleton). -/
def termsOf : Expr → List Expr
  | .addE l => l
  | e => [e]

/-- Distribute the product of two expanded expressions: cross-multiply their
addend lists through the smart constructors. -/
def mulExpand2 (a b : Expr) : Expr :=
  addC ((termsOf a).foldr
    (fun ta acc => (termsOf b).map (fun tb => mul2C ta tb) ++ acc) [])

/-- Unroll a non-negative integer power of an expanded expression into
repeated distributed multiplication. -/
def powExpandNat (b : Expr) : ℕ → Expr
  | 0 => .intE 1
  | k + 1 => mulExpand2 (powExpandNat b k) b

mutual

/-- Modelled from the spec (§4.G): full expansion — distribute every `Mul`
over every `Add` and unroll `Pow` with a non-negative integer literal
exponent into repeated multiplication, rebuilding with smart constructors
(which re-collect like terms, as SymEngine's dict-based `Add` does). -/
def expand : Expr → Expr
  | .addE l => addC (expandL l)
  | .mulE l => (expandL l).foldl (fun acc f => mulExpand2 acc f) (.intE 1)
  | .powE b e =>
    let eb := expand b
    match e with
    | .intE n => if 0 ≤ n then powExpandNat eb n.toNat else .powE eb (.intE n)
    | e => .powE eb (expand e)
  | .funcE f a => .funcE f (expand a)
  | e => e

/-- The expansion mapped over an argument list. -/
def expandL : List Expr → List Expr
  | [] => []
  | e :: es => expand e :: expandL es

end

/-- Tri-valued zero-test verdict (SymEngine `tribool`). -/
inductive Tribool where
  | tru
  | fls
  | ind
  deriving DecidableEq

/-- Modelled from the spec (§4.G): the structural zero test on an expanded
expression — a literal zero is true, a nonzero literal is false, and any
symbolic residue is indeterminate. -/
def triIsZero (e : Expr) : Tribool :=
  match numOf e with
  | some q => if q = 0 then .tru else .fls
  | none => .ind

/-! ### `verify_equal` and `diff` (`src/cpp/src/symbolic.cpp`) -/

/-- Model of `mathllm::verify_equal` (`src/cpp/src/symbolic.cpp`): parse both sides,
expand `lhs - rhs`, and collapse the tri-valued zero test to a boolean,
mapping `indeterminate` to `false`.  Failures raised under the `try` (parse
failures included) are rethrown as `VerifierError`.  The wall-clock timeout
checks compare elapsed real time with `timeout_ms`; real time is outside the
embedding, so they are modelled as never firing and the argument is otherwise
unused, matching the fact that the claims never exercise the timeout. -/
def verify_equal (lhs rhs : String) (timeout_ms : ℚ) : Except MErr Bool :=
  match parse lhs with
  | .error m => .error (.verifierE m)
  | .ok l =>
    match parse rhs with
    | .error m => .error (.verifierE m)
    | .ok r =>
      match triIsZero (expand (subC l r)) with
      | .tru => .ok true
      | .fls => .ok false
      | .ind => .ok false

/-- Model of `mathllm::diff` (`src/cpp/src/symbolic.cpp`): parse, then differentiate
via `SymEngine::diff` (external library code, abstracted as the `sdiff`
parameter).  Both `SymEngineException`s and every other `std::exception` —
including the `ParseError` thrown for unparseable input — are caught and
rethrown as `SymbolicError`, so no `mathllm::ParseError` ever escapes. -/
def diff (sdiff : Expr → String → Expr) (expr var : String) : Except MErr Expr :=
  match parse expr with
  | .error m => .error (.symbolicE m)
  | .ok e => .ok (sdiff e var)

/-! ### The pattern integrator (`src/cpp/src/symbolic.cpp`) -/

/-- Model of `integrate_pow` (`src/cpp/src/symbolic.cpp`): `e^v → e^v`; `v^n` with
integer literal `n` goes to `log v` for `n = -1` and `v^(n+1)/(n+1)`
otherwise; everything else is unsupported. -/
def integrate_pow (b ex : Expr) (v : String) : Except MErr Expr :=
  if Expr.beq b (.constE "e") then
    if Expr.beq ex (.symE v) then .ok (powC b ex)
    else .error (.symbolicE "Unsupported integrand")
  else if ¬ Expr.beq b (.symE v) then .error (.symbolicE "Unsupported integrand")
  else
    match ex with
    | .intE n =>
      if n = -1 then .ok (.funcE "log" (.symE v))
      else .ok (divC (powC (.symE v) (.intE (n + 1))) (.intE (n + 1)))
    | _ => .error (.symbolicE "Unsupported integrand")

/-- The factor scan of `integrate_mul`: fold the factors left to right,
multiplying `v`-free factors into `constant` and remembering the unique
`v`-containing factor in `dependent` (initially the literal `1`); a second
`v`-containing factor raises `SymbolicError("Unsupported integrand")`. -/
def integrateMulScan (v : String) (constant dependent : Expr) :
    List Expr → Except MErr (Expr × Expr)
  | [] => .ok (constant, dependent)
  | f :: fs =>
    if has_symbol v f then
      if ¬ Expr.beq dependent (.intE 1) then
        .error (.symbolicE "Unsupported integrand")
      else integrateMulScan v constant f fs
    else integrateMulScan v (mul2C constant f) dependent fs

theorem integrateMulScan_mem (v : String) :
    ∀ (l : List Expr) (c dep c' d' : Expr),
      integrateMulScan v c dep l = .ok (c', d') → d' = dep ∨ d' ∈ l := by
  intro l
  induction l with
  | nil =>
    intro c dep c' d' h
    simp only [integrateMulScan] at h
    cases h
    exact Or.inl rfl
  | cons f fs ih =>
    intro c dep c' d' h
    simp only [integrateMulScan] at h
    by_cases hf : has_symbol v f
    · rw [if_pos hf] at h
      by_cases hdep : Expr.beq dep (.intE 1) = true
      · rw [if_neg (by simp [hdep])] at h
        rcases ih _ _ _ _ h with h1 | h2
        · exact Or.inr (h1 ▸ List.mem_cons_self f fs)
        · exact Or.inr (List.mem_cons_of_mem f h2)
      · rw [if_pos (by simp [hdep])] at h
        cases h
    · rw [if_neg hf] at h
      rcases ih _ _ _ _ h with h1 | h2
      · exact Or.inl h1
      · exact Or.inr (List.mem_cons_of_mem f h2)

mutual

/-- Model of `integrate_basic` (`src/cpp/src/symbolic.cpp`): the rule dispatch —
`v`-free expressions multiply by `v`; the variable itself integrates to
`v^2/2`; `Add` and `Mul` recurse; `Pow` uses `integrate_pow`; `sin`/`cos`
with argument exactly `v` use the table; everything else (other function
symbols, other node kinds) is unsupported. -/
def integrate_basic (e : Expr) (v : String) : Except MErr Expr :=
  if has_symbol v e = false then .ok (mul2C e (.symE v))
  else
    match e with
    | .symE s =>
      if s = v then .ok (divC (powC (.symE v) (.intE 2)) (.intE 2))
      else .ok (mul2C (.symE s) (.symE v))
    | .addE l => integrate_add l v (.intE 0)
    | .mulE l => integrate_mul l v (.mulE l)
    | .powE b ex => integrate_pow b ex v
    | .funcE f a =>
      if f = "sin" then
        if Expr.beq a (.symE v) then .ok (mulC [.intE (-1), .funcE "cos" a])
        else .error (.symbolicE "Unsupported integrand")
      else if f = "cos" then
        if Expr.beq a (.symE v) then .ok (.funcE "sin" a)
        else .error (.symbolicE "Unsupported integrand")
      else .error (.symbolicE "Unsupported integrand")
    | _ => .error (.symbolicE "Unsupported integrand")
termination_by sizeOf e
decreasing_by
  all_goals simp_wf

/-- Model of `integrate_add` (`src/cpp/src/symbolic.cpp`): integrate each addend,
re-adding onto an accumulator that starts at the literal `0`. -/
def integrate_add (l : List Expr) (v : String) (acc : Expr) : Except MErr Expr :=
  match l with
  | [] => .ok acc
  | t :: ts =>
    match integrate_basic t v with
    | .error er => .error er
    | .ok r => integrate_add ts v (add2C acc r)
termination_by sizeOf l
decreasing_by
  all_goals simp_wf
  all_goals omega

/-- Model of `integrate_mul` (`src/cpp/src/symbolic.cpp`): scan the factors; if no
factor contains `v`, multiply the whole original `Mul` node by `v`; if
exactly one does, integrate it and multiply by the product of the `v`-free
factors; two `v`-containing factors already failed inside the scan. -/
def integrate_mul (args : List Expr) (v : String) (orig : Expr) : Except MErr Expr :=
  match h : integrateMulScan v (.intE 1) (.intE 1) args with
  | .error er => .error er
  | .ok cd =>
    if hbeq : Expr.beq cd.2 (.intE 1) = true then .ok (mul2C orig (.symE v))
    else
      match integrate_basic cd.2 v with
      | .error er => .error er
      | .ok r => .ok (mul2C cd.1 r)
termination_by sizeOf args
decreasing_by
  rcases integrateMulScan_mem v args (.intE 1) (.intE 1) cd.1 cd.2
    (by rw [h]) with h1 | h2
  · exact absurd (h1 ▸ Expr.beq_refl (Expr.intE 1)) (by simp_all)
  · have := List.sizeOf_lt_of_mem h2
    simp_wf
    omega

end

/-- Model of `mathllm::integrate` (`src/cpp/src/symbolic.cpp`): parse then integrate.
Every failure under the `try` — parse failures included — is rethrown as
`SymbolicError`, and the integrator's own errors already are
`SymbolicError("Unsupported integrand")`. -/
def integrate (expr var : String) : Except MErr Expr :=
  match parse expr with
  | .error m => .error (.symbolicE m)
  | .ok e => integrate_basic e var

/-! ### Numeric evaluation (`src/cpp/src/numeric.cpp`, `NumericEvaluator`) -/

/-- Failure modes of numeric evaluation: `thrown` models a thrown exception
(`NumericError` for the probe's evaluator, a `SymEngineException` for the ODE
side); `notFinite` models a computed value that a double would render NaN or
infinite (exact rationals cannot overflow, so this arises from `0` raised to
a negative power or from a math-library function). -/
inductive EvalFail where
  | thrown (msg : String)
  | notFinite
  deriving DecidableEq

/-- Interpretation of the platform math library (`std::sin`, `std::cos`,
`std::tan`, `std::log`, and `std::pow` on non-integer exponents), which is
external to the sources: each returns `some` finite rational or `none` for a
non-finite result. -/
structure MathInterp where
  fsin : ℚ → Option ℚ
  fcos : ℚ → Option ℚ
  ftan : ℚ → Option ℚ
  flog : ℚ → Option ℚ
  fpow : ℚ → ℚ → Option ℚ

/-- Lift a math-library result; `none` is a non-finite value. -/
def liftFin : Option ℚ → Except EvalFail ℚ
  | some r => .ok r
  | none => .error .notFinite

mutual

/-- Model of `NumericEvaluator` (`src/cpp/src/numeric.cpp`): literals evaluate to
their value; symbols via the environment (an undefined symbol throws);
`Add`/`Mul` fold left-to-right from `0`/`1`; `Pow` is IEEE `pow` (integer
exponents exact, `0^0 = 1`, zero to a negative power non-finite, non-integer
exponents via the interpretation); the four elementary functions go through
the interpretation; every other node — `Constant` included, the visitor has
no case for it — throws "Unsupported expression type". -/
def evalE (I : MathInterp) (env : String → Option ℚ) : Expr → Except EvalFail ℚ
  | .intE n => .ok (mkRat n 1)
  | .ratE q => .ok q
  | .symE s =>
    match env s with
    | some x => .ok x
    | none => .error (.thrown ("Undefined symbol: " ++ s))
  | .addE l => evalFoldAdd I env 0 l
  | .mulE l => evalFoldMul I env 1 l
  | .powE b e =>
    match evalE I env b with
    | .error er => .error er
    | .ok vb =>
      match evalE I env e with
      | .error er => .error er
      | .ok ve =>
        if ve.den = 1 then
          if vb = 0 ∧ ve.num < 0 then .error .notFinite
          else .ok (qpowInt vb ve.num)
        else
          match I.fpow vb ve with
          | some r => .ok r
          | none => .error .notFinite
  | .funcE f a =>
    match evalE I env a with
    | .error er => .error er
    | .ok va =>
      if f = "sin" then liftFin (I.fsin va)
      else if f = "cos" then liftFin (I.fcos va)
      else if f = "tan" then liftFin (I.ftan va)
      else if f = "log" then liftFin (I.flog va)
      else .error (.thrown "Unsupported expression type for numeric evaluation")
  | .constE _ => .error (.thrown "Unsupported expression type for numeric evaluation")

/-- The `Add` fold: `result = 0`, then `result = prev + child`. -/
def evalFoldAdd (I : MathInterp) (env : String → Option ℚ) (acc : ℚ) :
    List Expr → Except EvalFail ℚ
  | [] => .ok acc
  | e :: es =>
    match evalE I env e with
    | .error er => .error er
    | .ok v => evalFoldAdd I env (qadd acc v) es

/-- The `Mul` fold: `result = 1`, then `result = prev * child`. -/
def evalFoldMul (I : MathInterp) (env : String → Option ℚ) (acc : ℚ) :
    List Expr → Except EvalFail ℚ
  | [] => .ok acc
  | e :: es =>
    match evalE I env e with
    | .error er => .error er
    | .ok v => evalFoldMul I env (qmul acc v) es

end

/-! ### `probe_equal` (`src/cpp/src/numeric.cpp`) -/

/-- Probe outcome (`include/mathllm/numeric.h`); a `none` entry in
`max_errors` is the infinite error recorded for a failed evaluation. -/
structure ProbeResult where
  equal : Bool
  trials_executed : ℤ
  failures : ℤ
  max_errors : List (Option ℚ)
  deriving DecidableEq

/-- One drawn sample: the `k`-th stream value of the run seeded with `seed`,
with draws of magnitude below `1e-10` replaced by `domain_min + 0.1`. -/
def drawSample (g : ℕ → ℕ → ℚ) (seed : ℕ) (dmin : ℚ) (k : ℕ) : ℚ :=
  let v := g seed k
  if qabs v < mkRat 1 10000000000 then qadd dmin (mkRat 1 10) else v

/-- The `point` map of trial `t`: `point[sym] = draw` in symbol order (later
duplicates overwrite, as `std::map::operator[]` does); the draw for symbol
`i` is stream element `t * symbols.length + i`. -/
def trialEnv (g : ℕ → ℕ → ℚ) (seed : ℕ) (dmin : ℚ) (symbols : List String)
    (t : ℕ) : String → Option ℚ :=
  fun s =>
    (((symbols.enum.map
        (fun p => (p.2, drawSample g seed dmin (t * symbols.length + p.1)))).reverse.find?
      (fun p => p.1 = s)).map (fun p => p.2))

/-- The error recorded for one trial: `none` (infinite) when either side
throws or evaluates non-finite, else `max(|l-r|, |l-r|/(|r|+1e-10))`. -/
def trialErr (I : MathInterp) (g : ℕ → ℕ → ℚ) (seed : ℕ) (dmin : ℚ)
    (l r : Expr) (symbols : List String) (t : ℕ) : Option ℚ :=
  let env := trialEnv g seed dmin symbols t
  match evalE I env l, evalE I env r with
  | .ok lv, .ok rv =>
    some (qmax (qabs (qsub lv rv))
      (qdiv (qabs (qsub lv rv)) (qadd (qabs rv) (mkRat 1 10000000000))))
  | _, _ => none

/-- Does a recorded error count as a failure at threshold `τ`?  (An infinite
error always does; a finite one iff `err > τ`.) -/
def isFailTrial (τ : ℚ) : Option ℚ → Bool
  | none => true
  | some e => τ < e

/-- The trial loop of `probe_equal` from trial index `t` with `rem` trials
remaining: the failure count and the recorded errors, in trial order. -/
def probeTrials (I : MathInterp) (g : ℕ → ℕ → ℚ) (seed : ℕ) (dmin τ : ℚ)
    (l r : Expr) (symbols : List String) (t : ℕ) : ℕ → ℤ × List (Option ℚ)
  | 0 => (0, [])
  | rem + 1 =>
    let e := trialErr I g seed dmin l r symbols t
    let rest := probeTrials I g seed dmin τ l r symbols (t + 1) rem
    ((if isFailTrial τ e then 1 else 0) + rest.1, e :: rest.2)

/-- Model of `mathllm::probe_equal` (`src/cpp/src/numeric.cpp`): validate, parse both
sides (failures become `NumericError("Parse error: ...")`), then run
`trials` independent trials and report `equal = (failures == 0)` together
with `trials_executed = trials`, the failure count, and the per-trial
errors.  The PRNG (`std::mt19937` seeded with `seed`, drawn through
`std::uniform_real_distribution(domain_min, domain_max)`) is external
library code, abstracted as the stream `g`: `g seed k` is the `k`-th draw of
the run seeded with `seed`. -/
def probe_equal (I : MathInterp) (g : ℕ → ℕ → ℚ)
    (lhs rhs : String) (symbols : List String) (trials : ℤ) (seed : ℕ)
    (domain_min domain_max threshold : ℚ) : Except MErr ProbeResult :=
  if symbols = [] then .error (.numericE "No symbols provided for numeric probe")
  else if trials ≤ 0 then .error (.numericE "Number of trials must be positive")
  else if domain_max ≤ domain_min then
    .error (.numericE "Invalid domain: min must be less than max")
  else
    match parse lhs with
    | .error m => .error (.numericE ("Parse error: " ++ m))
    | .ok l =>
      match parse rhs with
      | .error m => .error (.numericE ("Parse error: " ++ m))
      | .ok r =>
        let run := probeTrials I g seed domain_min threshold l r symbols 0 trials.toNat
        .ok ⟨run.1 = 0, trials, run.1, run.2⟩

/-! ### The RK4 driver (`src/cpp/src/ode.cpp`) -/

/-- ODE outcome (`include/mathllm/ode.h`). -/
structure ODEResult where
  success : Bool
  t_values : List ℚ
  y_values : List (List ℚ)
  steps_taken : ℤ
  message : String
  deriving DecidableEq

/-- Failures inside `ODEEvaluator::evaluate`: `odeThrow` is a thrown
`mathllm::ODEError` (caught by the step loop's handler and reported in the
result), `extThrow` any other exception (it escapes to the outer handler and
aborts `solve_ivp`). -/
inductive OdeFail where
  | odeThrow (msg : String)
  | extThrow (msg : String)
  deriving DecidableEq

/-- Model of `ODEEvaluator::evaluate` (`src/cpp/src/ode.cpp`): substitute
`symbols[0] ↦ t` and `symbols[i+1] ↦ y[i]` (later duplicates overwrite) and
evaluate — `SymEngine::subs` plus `eval_double`, both external, modelled by
`evalE`.  A `y`/`symbols` length mismatch and a NaN/Inf value throw
`ODEError`; any other evaluation failure (e.g. a symbol left free) is an
external exception.  On success the singleton vector `{val}` is returned. -/
def odeEvaluate (I : MathInterp) (e : Expr) (symbols : List String)
    (t : ℚ) (y : List ℚ) : Except OdeFail (List ℚ) :=
  if y.length ≠ symbols.length - 1 then
    .error (.odeThrow "Mismatch between y values and symbols")
  else
    let env := fun s =>
      (((symbols.zip (t :: y)).reverse.find? (fun p => p.1 = s)).map (fun p => p.2))
    match evalE I env e with
    | .error .notFinite => .error (.odeThrow "Invalid function evaluation: NaN or Inf")
    | .error (.thrown m) => .error (.extThrow m)
    | .ok v => .ok [v]

/-- One classical RK4 step (the body of `solve_ivp`'s loop): four stage
evaluations, each stage reading component `k[0]` of the returned vector, the
stage states built from the original `y`, and the final update
`y + (h/6)(k1 + 2 k2 + 2 k3 + k4)`. -/
def rkStep (f : ℚ → List ℚ → Except OdeFail (List ℚ)) (h t : ℚ) (y : List ℚ) :
    Except OdeFail (List ℚ) :=
  match f t y with
  | .error er => .error er
  | .ok k1 =>
    let k1v := k1.headD 0
    let y1 := y.map (fun yi => qadd yi (qmul (qmul (mkRat 1 2) h) k1v))
    match f (qadd t (qmul (mkRat 1 2) h)) y1 with
    | .error er => .error er
    | .ok k2 =>
      let k2v := k2.headD 0
      let y2 := y.map (fun yi => qadd yi (qmul (qmul (mkRat 1 2) h) k2v))
      match f (qadd t (qmul (mkRat 1 2) h)) y2 with
      | .error er => .error er
      | .ok k3 =>
        let k3v := k3.headD 0
        let y3 := y.map (fun yi => qadd yi (qmul h k3v))
        match f (qadd t h) y3 with
        | .error er => .error er
        | .ok k4 =>
          let k4v := k4.headD 0
          .ok (y.map (fun yi =>
            qadd yi (qmul (qdiv h (mkRat 6 1))
              (qadd (qadd (qadd k1v (qmul (mkRat 2 1) k2v)) (qmul (mkRat 2 1) k3v)) k4v))))

/-- The step loop of `solve_ivp`: run up to `fuel` more steps from `(t, y)`
with `steps` steps already taken and the recorded arrays so far.  After each
step: advance `t` by `h`, count the step, check every component against the
`1e10` explosion threshold (returning without recording the exploded point),
record the new point, and stop successfully once `t ≥ t1 - 1e-10`.  A thrown
`ODEError` is caught here and reported in the result message (its `what()`
prepends the kind name); any other exception aborts the whole call.
Exhausting the step budget also counts as success, as in the source. -/
def rkLoop (f : ℚ → List ℚ → Except OdeFail (List ℚ)) (h t1 : ℚ) :
    ℕ → ℚ → List ℚ → ℤ → List ℚ → List (List ℚ) → Except MErr ODEResult
  | 0, _, _, steps, ts, ys =>
    .ok ⟨true, ts, ys, steps, "Integration completed successfully"⟩
  | fuel + 1, t, y, steps, ts, ys =>
    match rkStep f h t y with
    | .error (.odeThrow m) =>
      .ok ⟨false, ts, ys, steps, "ODE evaluation failed: ODEError: " ++ m⟩
    | .error (.extThrow m) => .error (.odeErrE ("ODE integration failed: " ++ m))
    | .ok y2 =>
      let t2 := qadd t h
      let steps2 := steps + 1
      if y2.any (fun v => mkRat 10000000000 1 < qabs v) then
        .ok ⟨false, ts, ys, steps2, "Solution exploded (exceeded threshold)"⟩
      else
        if qsub t1 (mkRat 1 10000000000) ≤ t2 then
          .ok ⟨true, ts ++ [t2], ys ++ [y2], steps2, "Integration completed successfully"⟩
        else rkLoop f h t1 fuel t2 y2 steps2 (ts ++ [t2]) (ys ++ [y2])

/-- Model of `mathllm::solve_ivp` (`src/cpp/src/ode.cpp`): the four validations (each
returning normally with `success = false`, zero steps, empty arrays and a
message naming the violated precondition), then parse (failures rethrown as
`mathllm::ParseError`), then the RK4 loop with fixed step
`h = (t1 - t0)/max_steps` started from the recorded initial point.
`rtol`/`atol` are accepted but never consulted. -/
def solve_ivp (I : MathInterp) (expr : String) (t0 t1 : ℚ) (y0 : List ℚ)
    (symbols : List String) (rtol atol : ℚ) (max_steps : ℤ) :
    Except MErr ODEResult :=
  if t1 ≤ t0 then .ok ⟨false, [], [], 0, "t1 must be greater than t0"⟩
  else if y0 = [] then .ok ⟨false, [], [], 0, "Initial conditions y0 cannot be empty"⟩
  else if symbols = [] then .ok ⟨false, [], [], 0, "Symbols list cannot be empty"⟩
  else if max_steps ≤ 0 then .ok ⟨false, [], [], 0, "max_steps must be positive"⟩
  else
    match parse expr with
    | .error m => .error (.parseE ("Failed to parse ODE expression: " ++ m))
    | .ok e =>
      rkLoop (odeEvaluate I e symbols) (qdiv (qsub t1 t0) (mkRat max_steps 1)) t1
        max_steps.toNat t0 y0 0 [t0] [y0]

/-! ### The dimensional analyzer (`src/cpp/src/units.cpp`) -/

/-- The traversal state of `DimensionChecker`: its `result`, `errors` and
`warnings` members. -/
structure DimChk where
  result : Dimension
  errors : List String
  warnings : List String
  deriving DecidableEq

/-- Lookup in the symbol-dimension map. -/
def findDim (dims : List (String × Dimension)) (s : String) : Option Dimension :=
  (dims.find? (fun p => p.1 = s)).map (fun p => p.2)

mutual

/-- Model of `DimensionChecker::bvisit` (`src/cpp/src/units.cpp`): symbols look up
their declared dimension (unknown ones warn and count dimensionless);
literals are dimensionless; `Add` records an error and resets on the first
child whose dimension differs from the first child's; `Pow` requires a
dimensionless exponent, scales the base dimension by an integer literal
exponent, warns on fractional powers of dimensional bases and errors on
other exponents over dimensional bases; the four elementary functions demand
dimensionless arguments; everything else (constants included) warns.  The
`Mul` case is taken over verbatim from the source, including its
accumulation defect — see `bvisitMulList`. -/
def bvisit (dims : List (String × Dimension)) : Expr → DimChk → DimChk
  | .symE s, st =>
    match findDim dims s with
    | some d => { st with result := d }
    | none =>
      { st with warnings := st.warnings ++ ["Unknown symbol dimension: " ++ s],
                result := Dimension.zero }
  | .intE _, st => { st with result := Dimension.zero }
  | .ratE _, st => { st with result := Dimension.zero }
  | .addE l, st =>
    match l with
    | [] => { st with result := Dimension.zero }
    | a :: rest =>
      let st1 := bvisit dims a st
      bvisitAddRest dims st1.result rest st1
  | .mulE l, st => bvisitMulList dims l { st with result := Dimension.zero }
  | .powE b e, st =>
    let stb := bvisit dims b st
    let baseDim := stb.result
    let ste := bvisit dims e stb
    let expDim := ste.result
    if expDim.isDimensionless = false then
      { ste with errors := ste.errors ++ ["Exponent must be dimensionless"],
                 result := Dimension.zero }
    else
      match e with
      | .intE n => { ste with result := baseDim.smul n }
      | .ratE _ =>
        if baseDim.isDimensionless = false then
          { ste with warnings := ste.warnings ++ ["Fractional power of dimensional quantity"],
                     result := Dimension.zero }
        else { ste with result := Dimension.zero }
      | _ =>
        if baseDim.isDimensionless = false then
          { ste with errors := ste.errors ++ ["Non-integer power requires dimensionless base"],
                     result := Dimension.zero }
        else { ste with result := Dimension.zero }
  | .funcE f a, st =>
    if f = "sin" ∨ f = "cos" ∨ f = "tan" ∨ f = "log" then
      let sta := bvisit dims a st
      let sta2 :=
        if sta.result.isDimensionless = false then
          { sta with errors := sta.errors ++ [f ++ "() argument must be dimensionless"] }
        else sta
      { sta2 with result := Dimension.zero }
    else
      { st with warnings := st.warnings ++ ["Unknown expression type for dimension analysis"],
                result := Dimension.zero }
  | .constE _, st =>
    { st with warnings := st.warnings ++ ["Unknown expression type for dimension analysis"],
              result := Dimension.zero }

/-- The tail of the `Add` case: compare each further child against the first
child's dimension, stopping with an error on the first mismatch. -/
def bvisitAddRest (dims : List (String × Dimension)) (first : Dimension) :
    List Expr → DimChk → DimChk
  | [], st => { st with result := first }
  | a :: rest, st =>
    let st1 := bvisit dims a st
    if st1.result ≠ first then
      { st1 with errors := st1.errors ++ ["Addition/subtraction requires matching dimensions"],
                 result := Dimension.zero }
    else bvisitAddRest dims first rest st1

/-- The `Mul` loop.  The source reads

    result = Dimension();
    for (arg : args) { arg->accept(*this); result = result + this->result; }

and `result` IS `this->result`, so each iteration stores twice the dimension
of the child just visited and the running sum of the earlier factors is
discarded: the loop ends with double the LAST child's dimension, not the
vector sum. -/
def bvisitMulList (dims : List (String × Dimension)) :
    List Expr → DimChk → DimChk
  | [], st => st
  | a :: rest, st =>
    let st1 := bvisit dims a st
    bvisitMulList dims rest { st1 with result := st1.result.add st1.result }

end

/-- Unit-check outcome (`include/mathllm/units.h`); `inferred` is the
`inferred_dimensions` map, an association list holding the single key
"result". -/
structure UnitCheckResult where
  ok : Bool
  warnings : List String
  errors : List String
  inferred : List (String × Dimension)
  deriving DecidableEq

/-- Model of `mathllm::unit_check` (`src/cpp/src/units.cpp`): parse (failures are
reported inside the result, not thrown), run the checker from a default
state, set `ok` iff no errors were recorded, and publish the root dimension
under "result". -/
def unit_check (expr : String) (symbol_dimensions : List (String × Dimension)) :
    UnitCheckResult :=
  match parse expr with
  | .error m => ⟨false, [], ["Parse error: " ++ m], []⟩
  | .ok e =>
    let st := bvisit symbol_dimensions e ⟨Dimension.zero, [], []⟩
    ⟨st.errors.isEmpty, st.warnings, st.errors, [("result", st.result)]⟩

/-! ### Generic helpers for the claim theorems -/

/-- Is the outcome a thrown `mathllm::ParseError`? -/
def isParseErr {α : Type} : Except MErr α → Bool
  | .error (.parseE _) => true
  | _ => false

theorem perm_two {α : Type} {x y a b : α} (h : List.Perm [x, y] [a, b]) :
    (x = a ∧ y = b) ∨ (x = b ∧ y = a) := by
  have hx : x ∈ [a, b] := h.subset (by simp)
  simp only [List.mem_cons, List.mem_singleton, List.not_mem_nil, or_false] at hx
  rcases hx with hx | hx
  · subst hx
    have h2 : List.Perm [y] [b] := (List.perm_cons x).1 h
    have hy : y ∈ [b] := h2.subset (by simp)
    simp only [List.mem_singleton] at hy
    exact Or.inl ⟨rfl, hy⟩
  · subst hx
    have h2 : List.Perm [x, y] [x, a] := h.trans (List.Perm.swap x a [])
    have h3 : List.Perm [y] [a] := (List.perm_cons x).1 h2
    have hy : y ∈ [a] := h3.subset (by simp)
    simp only [List.mem_singleton] at hy
    exact Or.inr ⟨rfl, hy⟩

theorem perm_three {α : Type} {l : List α} {a b c : α} (h : List.Perm l [a, b, c]) :
    l = [a, b, c] ∨ l = [a, c, b] ∨ l = [b, a, c] ∨
      l = [b, c, a] ∨ l = [c, a, b] ∨ l = [c, b, a] := by
  have hlen : l.length = 3 := h.length_eq
  match l, hlen with
  | [x, y, z], _ =>
    have hx : x ∈ [a, b, c] := h.subset (by simp)
    simp only [List.mem_cons, List.mem_singleton, List.not_mem_nil, or_false] at hx
    rcases hx with hx | hx | hx
    · subst hx
      have h2 : List.Perm [y, z] [b, c] := (List.perm_cons x).1 h
      rcases perm_two h2 with ⟨hy, hz⟩ | ⟨hy, hz⟩ <;> subst hy <;> subst hz
      · exact Or.inl rfl
      · exact Or.inr (Or.inl rfl)
    · subst hx
      have h1 : List.Perm [x, y, z] [x, a, c] := h.trans (List.Perm.swap x a [c])
      have h2 : List.Perm [y, z] [a, c] := (List.perm_cons x).1 h1
      rcases perm_two h2 with ⟨hy, hz⟩ | ⟨hy, hz⟩ <;> subst hy <;> subst hz
      · exact Or.inr (Or.inr (Or.inl rfl))
      · exact Or.inr (Or.inr (Or.inr (Or.inl rfl)))
    · subst hx
      have p1 : List.Perm [a, b, x] [a, x, b] := List.Perm.cons a (List.Perm.swap x b [])
      have p2 : List.Perm [a, x, b] [x, a, b] := List.Perm.swap x a [b]
      have h1 : List.Perm [x, y, z] [x, a, b] := h.trans (p1.trans p2)
      have h2 : List.Perm [y, z] [a, b] := (List.perm_cons x).1 h1
      rcases perm_two h2 with ⟨hy, hz⟩ | ⟨hy, hz⟩ <;> subst hy <;> subst hz
      · exact Or.inr (Or.inr (Or.inr (Or.inr (Or.inl rfl))))
      · exact Or.inr (Or.inr (Or.inr (Or.inr (Or.inr rfl))))

/-! ### Claim C1 — the `Mul` dimension rule

The spec says the dimension of a `Mul` node is the vector sum of its
children's dimensions and that the kinetic-energy example infers
`(2,1,-2,0,0,0,0)`.  The code's `Mul` visitor executes
`result = result + this->result` after visiting each child, doubling the
just-visited child's dimension and discarding the running sum, so the
traversal ends with twice the dimension of the last-visited child.  On
`(1/2)*m*v^2` (a `Mul` with children `1/2`, `m`, `v^2` in SymEngine's
unspecified order) the inferred result is twice the dimension of the last
child — `(4,0,-4,…)`, `(0,2,0,…)` or zero — never the claimed
`(2,1,-2,0,0,0,0)`; the repo's own `test_units.cpp` (`test_division`,
`test_complex_expression`) asserts the vector-sum behaviour, so the code is
the defect. -/

/-- C1 (code_bug evidence): with `m : (0,1,0,0,0,0,0)` and
`v : (1,0,-1,0,0,0,0)`, `unit_check("(1/2)*m*v^2")` returns `ok = true` but
infers `result = (4,0,-4,0,0,0,0)` (double the last factor's dimension), and
for every ordering of the three factors the `Mul` visitor's result differs
from the vector sum `(2,1,-2,0,0,0,0)` the claim demands. -/
theorem C1_mul_dimension_code_bug :
    unit_check "(1/2)*m*v^2"
      [("m", ⟨0, 1, 0, 0, 0, 0, 0⟩), ("v", ⟨1, 0, -1, 0, 0, 0, 0⟩)] =
      ⟨true, [], [], [("result", ⟨4, 0, -4, 0, 0, 0, 0⟩)]⟩ ∧
    (∀ args : List Expr,
      List.Perm args [Expr.ratE (mkRat 1 2), Expr.symE "m",
        Expr.powE (Expr.symE "v") (Expr.intE 2)] →
      (bvisit [("m", ⟨0, 1, 0, 0, 0, 0, 0⟩), ("v", ⟨1, 0, -1, 0, 0, 0, 0⟩)]
        (Expr.mulE args) ⟨Dimension.zero, [], []⟩).result ≠ ⟨2, 1, -2, 0, 0, 0, 0⟩) := by
  constructor
  · decide
  · intro args hperm
    rcases perm_three hperm with h | h | h | h | h | h <;> subst h <;> decide

/-- C1 witness: the permutation clause applied to the parser's own factor
order. -/
theorem C1_mul_dimension_code_bug_witness :
    (bvisit [("m", ⟨0, 1, 0, 0, 0, 0, 0⟩), ("v", ⟨1, 0, -1, 0, 0, 0, 0⟩)]
      (Expr.mulE [Expr.ratE (mkRat 1 2), Expr.symE "m",
        Expr.powE (Expr.symE "v") (Expr.intE 2)])
      ⟨Dimension.zero, [], []⟩).result ≠ ⟨2, 1, -2, 0, 0, 0, 0⟩ :=
  C1_mul_dimension_code_bug.2 _ (List.Perm.refl _)

/-! ### Claim C2 — `diff("", "x")`

The spec claims the failure kind is `ParseError`.  In the source, `diff`
wraps its whole body in a handler that rethrows both `SymEngineException`s
(which include SymEngine's parse error on empty input) and every other
`std::exception` as `SymbolicError`, so `diff("", "x")` fails with
`SymbolicError`, never `mathllm::ParseError` — the repo's own
`test_errors.cpp::test_empty_expression` catches `SymbolicError` here. -/

/-- C2 counterexample: at the claimed input, `diff` (with any concrete
differentiator — the error path never reaches it) fails with
`SymbolicError`, not `ParseError`. -/
theorem C2_diff_empty_counterexample :
    diff (fun e _ => e) "" "x" = .error (.symbolicE "empty input") ∧
    isParseErr (diff (fun e _ => e) "" "x") = false := by
  decide

/-- C2 (amended): `diff("", "x")` fails with `SymbolicError` (the parse
failure on empty input is caught by `diff`'s catch-all and rewrapped), for
every differentiator implementation. -/
theorem C2_diff_empty_symbolic_error :
    ∀ sdiff : Expr → String → Expr,
      diff sdiff "" "x" = .error (.symbolicE "empty input") := by
  intro sdiff
  have hp : parse "" = .error "empty input" := by decide
  simp only [diff, hp]

/-! ### Claim C5 — `verify_equal` -/

/-- C5: `verify_equal("x + x", "2*x", 100)` is `true`,
`verify_equal("x^2", "x^3", 100)` is `false`, and whenever the tri-valued
zero test of the expanded difference is indeterminate the function returns
`false` (never a third value). -/
theorem C5_verify_equal :
    verify_equal "x + x" "2*x" (mkRat 100 1) = .ok true ∧
    verify_equal "x^2" "x^3" (mkRat 100 1) = .ok false ∧
    (∀ (lhs rhs : String) (timeout : ℚ) (l r : Expr),
      parse lhs = .ok l → parse rhs = .ok r →
      triIsZero (expand (subC l r)) = .ind →
      verify_equal lhs rhs timeout = .ok false) := by
  refine ⟨by decide, by decide, ?_⟩
  intro lhs rhs timeout l r hl hr hind
  simp only [verify_equal, hl, hr, hind]

/-- C5 witness: the indeterminate clause applied to `x^2` versus `x^3`. -/
theorem C5_verify_equal_witness :
    verify_equal "x^2" "x^3" 0 = .ok false :=
  C5_verify_equal.2.2 "x^2" "x^3" 0 (.powE (.symE "x") (.intE 2))
    (.powE (.symE "x") (.intE 3)) (by decide) (by decide) (by decide)

/-! ### Claim C3 — the integrator's power rule -/

theorem powC_symE_lit (v : String) (n : ℤ) (h0 : n ≠ 0) (h1 : n ≠ 1) :
    powC (.symE v) (.intE n) = .powE (.symE v) (.intE n) := by
  simp [powC, numOf, Rat.mkRat_one, Int.cast_eq_zero, Int.cast_eq_one, h0, h1, Expr.beq]

theorem powC_symE_zero (v : String) : powC (.symE v) (.intE 0) = .intE 1 := by
  simp [powC, numOf, Rat.mkRat_one]

theorem powC_symE_one (v : String) : powC (.symE v) (.intE 1) = .symE v := by
  simp [powC, numOf, Rat.mkRat_one]

theorem has_symbol_self (v : String) : has_symbol v (.symE v) = true := by
  simp [has_symbol]

theorem mulC_one_symE (v : String) : mulC [.intE 1, .symE v] = .symE v := by
  simp [mulC, flattenMul, numOf]
  norm_num [qmul_eq, Rat.mkRat_one]

theorem mulC_symE_one (v : String) : mulC [.symE v, .intE 1] = .symE v := by
  simp [mulC, flattenMul, numOf]
  norm_num [qmul_eq, Rat.mkRat_one]

theorem integrate_basic_lit_one (v : String) :
    integrate_basic (.intE 1) v = .ok (mul2C (.intE 1) (.symE v)) := by
  simp [integrate_basic, has_symbol]

/-- C3: for every integer `n`, integrating the canonical form of `v^n` with
respect to `v` yields `log v` when `n = -1` and `v^(n+1)/(n+1)` otherwise
(for `n = 0` and `n = 1` the canonical `Pow` collapses and the `v`-free and
`Symbol` rules of `integrate_basic` produce the same value); moreover
`integrate("x", "x")` returns the tree `(1/2)·x^2`, whose value at every
point `q` is `q^2/2` — the "string equivalent to `x^2/2`". -/
theorem C3_integrate_power_rule :
    (∀ (v : String) (n : ℤ),
      integrate_basic (powC (.symE v) (.intE n)) v =
        .ok (if n = -1 then .funcE "log" (.symE v)
             else divC (powC (.symE v) (.intE (n + 1))) (.intE (n + 1)))) ∧
    integrate "x" "x" = .ok (.mulE [.ratE (mkRat 1 2), .powE (.symE "x") (.intE 2)]) ∧
    (∀ (I : MathInterp) (q : ℚ),
      evalE I (fun s => if s = "x" then some q else none)
        (.mulE [.ratE (mkRat 1 2), .powE (.symE "x") (.intE 2)]) = .ok (q ^ 2 / 2)) := by
  refine ⟨?_, ?_, ?_⟩
  · intro v n
    by_cases h0 : n = 0
    · subst h0
      rw [powC_symE_zero, integrate_basic_lit_one]
      norm_num
      rw [mul2C, mulC_one_symE, divC, powC_symE_one]
      rw [show powC (.intE 1) (.intE (-1)) = .intE 1 from by decide, mulC_symE_one]
    · by_cases h1 : n = 1
      · subst h1
        rw [powC_symE_one]
        norm_num
        rw [integrate_basic]
        simp [has_symbol]
      · rw [powC_symE_lit v n h0 h1]
        rw [integrate_basic]
        simp only [has_symbol, has_symbol_self, Bool.true_or, Bool.or_self]
        simp only [Bool.true_eq_false, if_false, integrate_pow, Expr.beq]
        by_cases hm : n = -1
        · subst hm
          simp
        · simp [hm]
  · have hp : parse "x" = .ok (.symE "x") := by decide
    have hb : integrate_basic (.symE "x") "x" =
        .ok (divC (powC (.symE "x") (.intE 2)) (.intE 2)) := by
      simp [integrate_basic, has_symbol]
    have hc : divC (powC (.symE "x") (.intE 2)) (.intE 2) =
        .mulE [.ratE (mkRat 1 2), .powE (.symE "x") (.intE 2)] := by decide
    rw [integrate, hp]
    show integrate_basic (.symE "x") "x" = _
    rw [hb, hc]
  · intro I q
    simp only [evalE, evalFoldMul]
    norm_num [Rat.mkRat_one]
    rw [qpowInt_eq, qmul_eq, qmul_eq]
    ring_nf
    norm_num [Rat.mkRat_eq_divInt, Rat.divInt_eq_div, zpow_ofNat]

/-! ### Claim C4 — the `Mul` partition of the integrator -/

/-- The product of the `v`-free factors, folded in encounter order from the
literal `1`, exactly as `integrate_mul` accumulates `constant`. -/
def vfreeProd (v : String) (args : List Expr) : Expr :=
  args.foldl (fun acc f => if has_symbol v f then acc else mul2C acc f) (.intE 1)

theorem has_symbol_beq_one {v : String} {f : Expr} (h : has_symbol v f = true) :
    Expr.beq f (.intE 1) = false := by
  by_contra hc
  have hb : Expr.beq f (.intE 1) = true := by
    cases hb : Expr.beq f (.intE 1)
    · exact absurd hb hc
    · rfl
  have hf : f = .intE 1 := Expr.beq_eq _ _ hb
  subst hf
  simp [has_symbol] at h

theorem scanNoDep (v : String) :
    ∀ (l : List Expr) (c d : Expr), l.countP (fun f => has_symbol v f) = 0 →
      integrateMulScan v c d l =
        .ok (l.foldl (fun acc f => if has_symbol v f then acc else mul2C acc f) c, d) := by
  intro l
  induction l with
  | nil => intro c d _; simp [integrateMulScan]
  | cons f fs ih =>
    intro c d h
    rw [List.countP_cons] at h
    have hf : has_symbol v f = false := by
      by_cases hb : has_symbol v f
      · simp [hb] at h
      · exact eq_false_of_ne_true hb
    rw [integrateMulScan, if_neg (by simp [hf])]
    rw [List.foldl_cons, if_neg (by simp [hf])]
    exact ih _ _ (by omega)

theorem scanSecondDep (v : String) :
    ∀ (l : List Expr) (c d : Expr), Expr.beq d (.intE 1) = false →
      1 ≤ l.countP (fun f => has_symbol v f) →
      integrateMulScan v c d l = .error (.symbolicE "Unsupported integrand") := by
  intro l
  induction l with
  | nil => intro c d _ h; simp at h
  | cons f fs ih =>
    intro c d hd h
    rw [List.countP_cons] at h
    by_cases hf : has_symbol v f
    · rw [integrateMulScan, if_pos (by simp [hf]), if_pos (by simp [hd])]
    · rw [integrateMulScan, if_neg (by simp [hf])]
      exact ih _ _ hd (by simpa [hf] using h)

theorem scanOneDep (v : String) :
    ∀ (l : List Expr) (c d : Expr), l.countP (fun f => has_symbol v f) = 1 →
      l.find? (fun f => has_symbol v f) = some d →
      integrateMulScan v c (.intE 1) l =
        .ok (l.foldl (fun acc f => if has_symbol v f then acc else mul2C acc f) c, d) := by
  intro l
  induction l with
  | nil => intro c d h _; simp at h
  | cons f fs ih =>
    intro c d h hfind
    rw [List.countP_cons] at h
    by_cases hf : has_symbol v f
    · have hd : d = f := by
        rw [List.find?_cons_of_pos _ (by simp [hf])] at hfind
        exact (Option.some_inj.1 hfind).symm
      subst hd
      rw [integrateMulScan, if_pos (by simp [hf]),
        if_neg (by simp [Expr.beq_refl])]
      rw [List.foldl_cons, if_pos (by simp [hf])]
      exact scanNoDep v fs c d (by simpa [hf] using h)
    · rw [List.find?_cons_of_neg _ (by simp [hf])] at hfind
      rw [integrateMulScan, if_neg (by simp [hf])]
      rw [List.foldl_cons, if_neg (by simp [hf])]
      exact ih _ _ (by simpa [hf] using h) hfind

theorem scanTwoDep (v : String) :
    ∀ (l : List Expr) (c : Expr), 2 ≤ l.countP (fun f => has_symbol v f) →
      integrateMulScan v c (.intE 1) l = .error (.symbolicE "Unsupported integrand") := by
  intro l
  induction l with
  | nil => intro c h; simp at h
  | cons f fs ih =>
    intro c h
    rw [List.countP_cons] at h
    by_cases hf : has_symbol v f
    · rw [integrateMulScan, if_pos (by simp [hf]),
        if_neg (by simp [Expr.beq_refl])]
      exact scanSecondDep v fs c f (has_symbol_beq_one hf) (by simpa [hf] using h)
    · rw [integrateMulScan, if_neg (by simp [hf])]
      exact ih _ (by simpa [hf] using h)

/-- C4: `integrate_mul` partitions the factors of a `Mul` by whether they
contain `v`: with no `v`-containing factor it returns the whole product
times `v`; with exactly one (`d`, the factor `find?` locates) it returns the
`v`-free product times `∫ d dv` (propagating that integral's failure); with
two or more it fails with `SymbolicError("Unsupported integrand")`. -/
theorem C4_integrate_mul_partition :
    ∀ (args : List Expr) (v : String),
      (args.countP (fun f => has_symbol v f) = 0 →
        integrate_mul args v (.mulE args) = .ok (mul2C (.mulE args) (.symE v))) ∧
      (∀ d, args.countP (fun f => has_symbol v f) = 1 →
        args.find? (fun f => has_symbol v f) = some d →
        integrate_mul args v (.mulE args) =
          (integrate_basic d v).map (fun r => mul2C (vfreeProd v args) r)) ∧
      (2 ≤ args.countP (fun f => has_symbol v f) →
        integrate_mul args v (.mulE args) = .error (.symbolicE "Unsupported integrand")) := by
  intro args v
  refine ⟨?_, ?_, ?_⟩
  · intro h0
    have hscan := scanNoDep v args (.intE 1) (.intE 1) h0
    rw [integrate_mul, hscan]
    simp [Expr.beq_refl]
  · intro d h1 hfind
    have hdep : has_symbol v d = true := by
      have := List.find?_some hfind
      simpa using this
    have hscan := scanOneDep v args (.intE 1) d h1 hfind
    rw [integrate_mul, hscan]
    simp only [has_symbol_beq_one hdep, Bool.false_eq_true, if_false]
    rcases hi : integrate_basic d v with er | r
    · simp [Except.map, vfreeProd]
    · simp [Except.map, vfreeProd]
  · intro h2
    rw [integrate_mul, scanTwoDep v args (.intE 1) h2]

/-- C4 witness: the three partition cases at concrete factor lists. -/
theorem C4_integrate_mul_partition_witness :
    integrate_mul [.intE 2, .intE 3] "x" (.mulE [.intE 2, .intE 3]) =
      .ok (mul2C (.mulE [.intE 2, .intE 3]) (.symE "x")) ∧
    integrate_mul [.intE 2, .symE "x"] "x" (.mulE [.intE 2, .symE "x"]) =
      (integrate_basic (.symE "x") "x").map
        (fun r => mul2C (vfreeProd "x" [.intE 2, .symE "x"]) r) ∧
    integrate_mul [.symE "x", .symE "x"] "x" (.mulE [.symE "x", .symE "x"]) =
      .error (.symbolicE "Unsupported integrand") :=
  ⟨(C4_integrate_mul_partition _ _).1 (by decide),
   (C4_integrate_mul_partition _ _).2.1 (.symE "x") (by decide) (by decide),
   (C4_integrate_mul_partition _ _).2.2 (by decide)⟩

/-! ### Claims C9 and C10 — the ODE driver's invariants and validation -/

/-- A concrete math-library interpretation for witnesses (its functions are
never reached by the inputs the witnesses use). -/
def trivInterp : MathInterp :=
  ⟨fun _ => none, fun _ => none, fun _ => none, fun _ => none, fun _ _ => none⟩

theorem rkLoop_success_invariants
    (f : ℚ → List ℚ → Except OdeFail (List ℚ)) (h t1 : ℚ) (hpos : 0 < h) :
    ∀ (fuel : ℕ) (t : ℚ) (y : List ℚ) (steps : ℤ) (ts : List ℚ)
      (ys : List (List ℚ)) (r : ODEResult),
      ts.getLast? = some t → List.Chain' (· < ·) ts →
      ts.length = ys.length → (ts.length : ℤ) = steps + 1 →
      rkLoop f h t1 fuel t y steps ts ys = .ok r → r.success = true →
      List.Chain' (· < ·) r.t_values ∧ r.t_values.length = r.y_values.length ∧
        (r.t_values.length : ℤ) = r.steps_taken + 1 := by
  intro fuel
  induction fuel with
  | zero =>
    intro t y steps ts ys r hlast hchain hlen hsteps hrun _
    rw [rkLoop] at hrun
    cases hrun
    exact ⟨hchain, hlen, hsteps⟩
  | succ fuel ih =>
    intro t y steps ts ys r hlast hchain hlen hsteps hrun hsuc
    rw [rkLoop] at hrun
    rcases hstep : rkStep f h t y with er | y2
    · rcases er with m | m
      · rw [hstep] at hrun
        cases hrun
        simp at hsuc
      · rw [hstep] at hrun
        cases hrun
    · rw [hstep] at hrun
      dsimp only at hrun
      by_cases hexp : (y2.any fun v => mkRat 10000000000 1 < qabs v) = true
      · rw [if_pos hexp] at hrun
        cases hrun
        simp at hsuc
      · rw [if_neg hexp] at hrun
        have ht2 : t < qadd t h := by rw [qadd_eq]; linarith
        have hlast2 : (ts ++ [qadd t h]).getLast? = some (qadd t h) := by simp
        have hchain2 : List.Chain' (· < ·) (ts ++ [qadd t h]) := by
          apply List.Chain'.append hchain (List.chain'_singleton _)
          intro x hx z hz
          simp only [List.head?_cons, Option.mem_def, Option.some.injEq] at hz
          subst hz
          rw [hlast] at hx
          simp only [Option.mem_def, Option.some.injEq] at hx
          subst hx
          exact ht2
        have hlen2 : (ts ++ [qadd t h]).length = (ys ++ [y2]).length := by
          simp [hlen]
        have hsteps2 : ((ts ++ [qadd t h]).length : ℤ) = (steps + 1) + 1 := by
          simp only [List.length_append, List.length_singleton]
          push_cast
          omega
        by_cases hbrk : qsub t1 (mkRat 1 10000000000) ≤ qadd t h
        · rw [if_pos hbrk] at hrun
          cases hrun
          exact ⟨hchain2, hlen2, hsteps2⟩
        · rw [if_neg hbrk] at hrun
          exact ih (qadd t h) y2 (steps + 1) (ts ++ [qadd t h]) (ys ++ [y2]) r
            hlast2 hchain2 hlen2 hsteps2 hrun hsuc

/-- C9: every `solve_ivp` call that returns `success = true` records a
strictly increasing `t_values` sequence with
`len(t_values) = len(y_values) = steps_taken + 1`. -/
theorem C9_solve_ivp_success_invariants :
    ∀ (I : MathInterp) (expr : String) (t0 t1 : ℚ) (y0 : List ℚ)
      (symbols : List String) (rtol atol : ℚ) (max_steps : ℤ) (r : ODEResult),
      solve_ivp I expr t0 t1 y0 symbols rtol atol max_steps = .ok r →
      r.success = true →
      List.Chain' (· < ·) r.t_values ∧ r.t_values.length = r.y_values.length ∧
        (r.t_values.length : ℤ) = r.steps_taken + 1 := by
  intro I expr t0 t1 y0 symbols rtol atol max_steps r hrun hsuc
  rw [solve_ivp] at hrun
  by_cases h1 : t1 ≤ t0
  · rw [if_pos h1] at hrun; cases hrun; simp at hsuc
  rw [if_neg h1] at hrun
  by_cases h2 : y0 = []
  · rw [if_pos h2] at hrun; cases hrun; simp at hsuc
  rw [if_neg h2] at hrun
  by_cases h3 : symbols = []
  · rw [if_pos h3] at hrun; cases hrun; simp at hsuc
  rw [if_neg h3] at hrun
  by_cases h4 : max_steps ≤ 0
  · rw [if_pos h4] at hrun; cases hrun; simp at hsuc
  rw [if_neg h4] at hrun
  rcases hp : parse expr with m | e
  · rw [hp] at hrun; cases hrun
  rw [hp] at hrun
  have hpos : 0 < qdiv (qsub t1 t0) (mkRat max_steps 1) := by
    rw [qdiv_eq, qsub_eq, Rat.mkRat_one]
    apply div_pos
    · linarith [not_le.1 h1]
    · exact_mod_cast not_le.1 h4
  exact rkLoop_success_invariants _ _ _ hpos _ t0 y0 0 [t0] [y0] r
    (by simp) (List.chain'_singleton _) rfl (by simp) hrun hsuc

/-- C9 witness: a one-step successful integration of `y' = 1` on `[0, 1]`. -/
theorem C9_solve_ivp_success_invariants_witness :
    List.Chain' (· < ·) (([0, 1] : List ℚ)) ∧
      ([0, 1] : List ℚ).length = ([[1], [mkRat 2 1]] : List (List ℚ)).length ∧
      ((([0, 1] : List ℚ).length : ℤ)) = 1 + 1 :=
  C9_solve_ivp_success_invariants trivInterp "1" 0 1 [1] ["t", "y"] 0 0 1
    ⟨true, [0, 1], [[1], [mkRat 2 1]], 1, "Integration completed successfully"⟩
    (by decide) rfl

/-- C10: each invalid `solve_ivp` input (`t1 ≤ t0`, empty `y0`, empty
`symbols`, or `max_steps ≤ 0`) returns normally with `success = false`,
`steps_taken = 0`, empty result arrays, and a message naming a violated
precondition (the first failing check's message). -/
theorem C10_solve_ivp_validation :
    ∀ (I : MathInterp) (expr : String) (t0 t1 : ℚ) (y0 : List ℚ)
      (symbols : List String) (rtol atol : ℚ) (max_steps : ℤ),
      (t1 ≤ t0 ∨ y0 = [] ∨ symbols = [] ∨ max_steps ≤ 0) →
      ∃ r, solve_ivp I expr t0 t1 y0 symbols rtol atol max_steps = .ok r ∧
        r.success = false ∧ r.steps_taken = 0 ∧ r.t_values = [] ∧ r.y_values = [] ∧
        ((t1 ≤ t0 ∧ r.message = "t1 must be greater than t0") ∨
         (y0 = [] ∧ r.message = "Initial conditions y0 cannot be empty") ∨
         (symbols = [] ∧ r.message = "Symbols list cannot be empty") ∨
         (max_steps ≤ 0 ∧ r.message = "max_steps must be positive")) := by
  intro I expr t0 t1 y0 symbols rtol atol max_steps hbad
  by_cases h1 : t1 ≤ t0
  · refine ⟨⟨false, [], [], 0, "t1 must be greater than t0"⟩, ?_, rfl, rfl, rfl, rfl,
      Or.inl ⟨h1, rfl⟩⟩
    rw [solve_ivp, if_pos h1]
  by_cases h2 : y0 = []
  · refine ⟨⟨false, [], [], 0, "Initial conditions y0 cannot be empty"⟩, ?_, rfl, rfl, rfl, rfl,
      Or.inr (Or.inl ⟨h2, rfl⟩)⟩
    rw [solve_ivp, if_neg h1, if_pos h2]
  by_cases h3 : symbols = []
  · refine ⟨⟨false, [], [], 0, "Symbols list cannot be empty"⟩, ?_, rfl, rfl, rfl, rfl,
      Or.inr (Or.inr (Or.inl ⟨h3, rfl⟩))⟩
    rw [solve_ivp, if_neg h1, if_neg h2, if_pos h3]
  by_cases h4 : max_steps ≤ 0
  · refine ⟨⟨false, [], [], 0, "max_steps must be positive"⟩, ?_, rfl, rfl, rfl, rfl,
      Or.inr (Or.inr (Or.inr ⟨h4, rfl⟩))⟩
    rw [solve_ivp, if_neg h1, if_neg h2, if_neg h3, if_pos h4]
  rcases hbad with hb | hb | hb | hb
  · exact absurd hb h1
  · exact absurd hb h2
  · exact absurd hb h3
  · exact absurd hb h4

/-- C10 witness: the inverted interval `t1 ≤ t0`. -/
theorem C10_solve_ivp_validation_witness :
    ∃ r, solve_ivp trivInterp "y" 1 0 [1] ["t", "y"] 0 0 (mkRat 10 1).num = .ok r ∧
      r.success = false ∧ r.steps_taken = 0 ∧ r.t_values = [] ∧ r.y_values = [] ∧
      (((0 : ℚ) ≤ 1 ∧ r.message = "t1 must be greater than t0") ∨
       (([1] : List ℚ) = [] ∧ r.message = "Initial conditions y0 cannot be empty") ∨
       ((["t", "y"] : List String) = [] ∧ r.message = "Symbols list cannot be empty") ∨
       ((mkRat 10 1).num ≤ 0 ∧ r.message = "max_steps must be positive")) :=
  C10_solve_ivp_validation trivInterp "y" 1 0 [1] ["t", "y"] 0 0 (mkRat 10 1).num
    (Or.inl (by norm_num))

/-! ### Claims C6 and C7 — `probe_equal` determinism and trial semantics -/

theorem drawSample_congr {g1 g2 : ℕ → ℕ → ℚ} {seed : ℕ}
    (hg : ∀ k, g1 seed k = g2 seed k) (dmin : ℚ) (k : ℕ) :
    drawSample g1 seed dmin k = drawSample g2 seed dmin k := by
  simp [drawSample, hg k]

theorem trialEnv_congr {g1 g2 : ℕ → ℕ → ℚ} {seed : ℕ}
    (hg : ∀ k, g1 seed k = g2 seed k) (dmin : ℚ) (symbols : List String) (t : ℕ) :
    trialEnv g1 seed dmin symbols t = trialEnv g2 seed dmin symbols t := by
  funext s
  have hf : (fun (p : ℕ × String) =>
      (p.2, drawSample g1 seed dmin (t * symbols.length + p.1))) =
      (fun (p : ℕ × String) =>
      (p.2, drawSample g2 seed dmin (t * symbols.length + p.1))) :=
    funext fun p => by rw [drawSample_congr hg]
  simp only [trialEnv, hf]

theorem trialErr_congr (I : MathInterp) {g1 g2 : ℕ → ℕ → ℚ} {seed : ℕ}
    (hg : ∀ k, g1 seed k = g2 seed k) (dmin : ℚ) (l r : Expr)
    (symbols : List String) (t : ℕ) :
    trialErr I g1 seed dmin l r symbols t = trialErr I g2 seed dmin l r symbols t := by
  simp only [trialErr, trialEnv_congr hg]

theorem probeTrials_congr (I : MathInterp) {g1 g2 : ℕ → ℕ → ℚ} {seed : ℕ}
    (hg : ∀ k, g1 seed k = g2 seed k) (dmin τ : ℚ) (l r : Expr)
    (symbols : List String) :
    ∀ (rem t : ℕ),
      probeTrials I g1 seed dmin τ l r symbols t rem =
        probeTrials I g2 seed dmin τ l r symbols t rem := by
  intro rem
  induction rem with
  | zero => intro t; rfl
  | succ rem ih =>
    intro t
    simp only [probeTrials, trialErr_congr I hg, ih]

/-- C6: `probe_equal` is deterministic — it consults nothing beyond its
arguments and the PRNG stream belonging to the given seed, so two calls with
identical `(lhs, rhs, symbols, trials, seed, domain, threshold)` and with
PRNG streams that agree at that seed return identical `ProbeResult`s,
`max_errors` included (doubles are exact rationals here, so equality is
bitwise identity). -/
theorem C6_probe_equal_deterministic :
    ∀ (I : MathInterp) (g1 g2 : ℕ → ℕ → ℚ) (lhs rhs : String)
      (symbols : List String) (trials : ℤ) (seed : ℕ) (dmin dmax τ : ℚ),
      (∀ k, g1 seed k = g2 seed k) →
      probe_equal I g1 lhs rhs symbols trials seed dmin dmax τ =
        probe_equal I g2 lhs rhs symbols trials seed dmin dmax τ := by
  intro I g1 g2 lhs rhs symbols trials seed dmin dmax τ hg
  rw [probe_equal, probe_equal]
  by_cases h1 : symbols = []
  · rw [if_pos h1, if_pos h1]
  rw [if_neg h1, if_neg h1]
  by_cases h2 : trials ≤ 0
  · rw [if_pos h2, if_pos h2]
  rw [if_neg h2, if_neg h2]
  by_cases h3 : dmax ≤ dmin
  · rw [if_pos h3, if_pos h3]
  rw [if_neg h3, if_neg h3]
  rcases hl : parse lhs with m | l
  · rfl
  rcases hr : parse rhs with m | r
  · rfl
  simp only [probeTrials_congr I hg]

/-- C6 witness: two calls with the same constant stream coincide. -/
theorem C6_probe_equal_deterministic_witness :
    probe_equal trivInterp (fun _ _ => 1) "x" "x" ["x"] 1 42 0 1 0 =
      probe_equal trivInterp (fun _ _ => 1) "x" "x" ["x"] 1 42 0 1 0 :=
  C6_probe_equal_deterministic trivInterp (fun _ _ => 1) (fun _ _ => 1)
    "x" "x" ["x"] 1 42 0 1 0 (fun _ => rfl)

theorem probeTrials_snd_length (I : MathInterp) (g : ℕ → ℕ → ℚ) (seed : ℕ)
    (dmin τ : ℚ) (l r : Expr) (symbols : List String) :
    ∀ (rem t : ℕ), (probeTrials I g seed dmin τ l r symbols t rem).2.length = rem := by
  intro rem
  induction rem with
  | zero => intro t; rfl
  | succ rem ih => intro t; simp [probeTrials, ih]

theorem probeTrials_snd_get (I : MathInterp) (g : ℕ → ℕ → ℚ) (seed : ℕ)
    (dmin τ : ℚ) (l r : Expr) (symbols : List String) :
    ∀ (rem t i : ℕ), i < rem →
      (probeTrials I g seed dmin τ l r symbols t rem).2[i]? =
        some (trialErr I g seed dmin l r symbols (t + i)) := by
  intro rem
  induction rem with
  | zero => intro t i h; omega
  | succ rem ih =>
    intro t i h
    match i with
    | 0 => simp [probeTrials]
    | i + 1 =>
      have := ih (t + 1) i (by omega)
      simp only [probeTrials, List.getElem?_cons_succ]
      rw [this]
      congr 2
      omega

theorem probeTrials_fst (I : MathInterp) (g : ℕ → ℕ → ℚ) (seed : ℕ)
    (dmin τ : ℚ) (l r : Expr) (symbols : List String) :
    ∀ (rem t : ℕ),
      (probeTrials I g seed dmin τ l r symbols t rem).1 =
        ((probeTrials I g seed dmin τ l r symbols t rem).2.countP (isFailTrial τ) : ℤ) := by
  intro rem
  induction rem with
  | zero => intro t; rfl
  | succ rem ih =>
    intro t
    simp only [probeTrials, List.countP_cons, ih]
    by_cases hf : isFailTrial τ (trialErr I g seed dmin l r symbols t)
    · simp [hf]
      push_cast
      omega
    · simp [hf]

/-- C7: on a valid, parseable call, `probe_equal` returns `ok` with
`trials_executed = trials`, one recorded error per trial (trial `i`'s entry
is exactly `trialErr … i`), `failures` counting exactly the failing entries,
and `equal = (failures == 0)`; a drawn sample of magnitude below `1e-10` is
replaced by `dmin + 0.1` (and kept otherwise); a trial where either side
fails to evaluate finitely records `none` (the infinite error), which always
counts as a failure; a trial where both sides evaluate records
`max(|l-r|, |l-r|/(|r|+1e-10))` and fails iff that exceeds the threshold. -/
theorem C7_probe_equal_trial_semantics :
    ∀ (I : MathInterp) (g : ℕ → ℕ → ℚ) (lhs rhs : String)
      (symbols : List String) (trials : ℤ) (seed : ℕ) (dmin dmax τ : ℚ)
      (l r : Expr),
      symbols ≠ [] → 0 < trials → dmin < dmax →
      parse lhs = .ok l → parse rhs = .ok r →
      ∃ R, probe_equal I g lhs rhs symbols trials seed dmin dmax τ = .ok R ∧
        R.trials_executed = trials ∧
        R.max_errors.length = trials.toNat ∧
        (∀ i, i < trials.toNat →
          R.max_errors[i]? = some (trialErr I g seed dmin l r symbols i)) ∧
        R.failures = (R.max_errors.countP (isFailTrial τ) : ℤ) ∧
        R.equal = decide (R.failures = 0) ∧
        (∀ k, qabs (g seed k) < mkRat 1 10000000000 →
          drawSample g seed dmin k = qadd dmin (mkRat 1 10)) ∧
        (∀ k, ¬ qabs (g seed k) < mkRat 1 10000000000 →
          drawSample g seed dmin k = g seed k) ∧
        (∀ i lv rv, evalE I (trialEnv g seed dmin symbols i) l = .ok lv →
          evalE I (trialEnv g seed dmin symbols i) r = .ok rv →
          trialErr I g seed dmin l r symbols i =
            some (qmax (qabs (qsub lv rv))
              (qdiv (qabs (qsub lv rv)) (qadd (qabs rv) (mkRat 1 10000000000))))) ∧
        (∀ i er, (evalE I (trialEnv g seed dmin symbols i) l = .error er ∨
            evalE I (trialEnv g seed dmin symbols i) r = .error er) →
          trialErr I g seed dmin l r symbols i = none) ∧
        isFailTrial τ none = true ∧
        (∀ e : ℚ, isFailTrial τ (some e) = decide (τ < e)) := by
  intro I g lhs rhs symbols trials seed dmin dmax τ l r hsym htr hdom hl hr
  rw [probe_equal, if_neg hsym, if_neg (not_le.2 htr), if_neg (not_le.2 hdom), hl, hr]
  refine ⟨_, rfl, rfl, probeTrials_snd_length I g seed dmin τ l r symbols trials.toNat 0,
    ?_, probeTrials_fst I g seed dmin τ l r symbols trials.toNat 0, rfl, ?_, ?_, ?_, ?_, rfl, ?_⟩
  · intro i hi
    have := probeTrials_snd_get I g seed dmin τ l r symbols trials.toNat 0 i hi
    simpa using this
  · intro k hk
    simp [drawSample, hk]
  · intro k hk
    simp [drawSample, hk]
  · intro i lv rv hlv hrv
    simp [trialErr, hlv, hrv]
  · intro i er her
    rcases hel : evalE I (trialEnv g seed dmin symbols i) l with er' | lv
    · simp [trialErr, hel]
    · rcases her with her | her
      · rw [hel] at her; cases her
      · simp [trialErr, hel, her]
  · intro e
    rfl

/-- C7 witness: a one-trial probe of `x` against itself. -/
theorem C7_probe_equal_trial_semantics_witness :
    ∃ R, probe_equal trivInterp (fun _ _ => 1) "x" "x" ["x"] 1 7 0 1 0 = .ok R ∧
      R.trials_executed = 1 ∧
      R.max_errors.length = (1 : ℤ).toNat ∧
      (∀ i, i < (1 : ℤ).toNat →
        R.max_errors[i]? =
          some (trialErr trivInterp (fun _ _ => 1) 7 0 (.symE "x") (.symE "x") ["x"] i)) ∧
      R.failures = (R.max_errors.countP (isFailTrial 0) : ℤ) ∧
      R.equal = decide (R.failures = 0) ∧
      (∀ k, qabs ((fun _ _ => (1 : ℚ)) 7 k) < mkRat 1 10000000000 →
        drawSample (fun _ _ => 1) 7 0 k = qadd 0 (mkRat 1 10)) ∧
      (∀ k, ¬ qabs ((fun _ _ => (1 : ℚ)) 7 k) < mkRat 1 10000000000 →
        drawSample (fun _ _ => 1) 7 0 k = (fun _ _ => (1 : ℚ)) 7 k) ∧
      (∀ i lv rv,
        evalE trivInterp (trialEnv (fun _ _ => 1) 7 0 ["x"] i) (.symE "x") = .ok lv →
        evalE trivInterp (trialEnv (fun _ _ => 1) 7 0 ["x"] i) (.symE "x") = .ok rv →
        trialErr trivInterp (fun _ _ => 1) 7 0 (.symE "x") (.symE "x") ["x"] i =
          some (qmax (qabs (qsub lv rv))
            (qdiv (qabs (qsub lv rv)) (qadd (qabs rv) (mkRat 1 10000000000))))) ∧
      (∀ i er,
        (evalE trivInterp (trialEnv (fun _ _ => 1) 7 0 ["x"] i) (.symE "x") = .error er ∨
         evalE trivInterp (trialEnv (fun _ _ => 1) 7 0 ["x"] i) (.symE "x") = .error er) →
        trialErr trivInterp (fun _ _ => 1) 7 0 (.symE "x") (.symE "x") ["x"] i = none) ∧
      isFailTrial 0 none = true ∧
      (∀ e : ℚ, isFailTrial 0 (some e) = decide ((0 : ℚ) < e)) :=
  C7_probe_equal_trial_semantics trivInterp (fun _ _ => 1) "x" "x" ["x"] 1 7 0 1 0
    (.symE "x") (.symE "x") (by decide) (by decide) (by decide) (by decide) (by decide)

/-! ### Claim C8 — explosion detection

For `y' = 10 y`, `h = (5-0)/1000 = 1/200`, one exact RK4 step multiplies the
state by `φ = 1 + 1/20 + 1/800 + 1/48000 + 1/3840000 = 1345627/1280000`; the
smallest `n` with `φ^n > 10^10` is `461 ≤ 1000`, and `t` reaches only
`461/200` there, far below `5 - 10^-10`, so the driver returns the explosion
result at step 461.  (In the C++ the state is a double; φ ≈ e^{0.05} and
`φ^461 ≈ 1.024·10^10` clears the threshold by 2.4%, so rounding cannot move
the verdict.) -/

theorem f_eval_ten_y (I : MathInterp) (t y : ℚ) :
    odeEvaluate I (.mulE [.intE 10, .symE "y"]) ["t", "y"] t [y] = .ok [(10 : ℚ) * y] := by
  have hv : qmul (qmul 1 10) y = 10 * y := by
    rw [qmul_eq, qmul_eq]
    ring
  simp only [odeEvaluate, evalE, evalFoldMul]
  norm_num
  rw [hv]

theorem rkStep_ten_y (I : MathInterp) (t y : ℚ) :
    rkStep (odeEvaluate I (.mulE [.intE 10, .symE "y"]) ["t", "y"]) ((1 : ℚ)/200) t [y] =
      .ok [((1345627 : ℚ)/1280000) * y] := by
  rw [rkStep, f_eval_ten_y]
  dsimp only [List.headD, List.map]
  rw [f_eval_ten_y]
  dsimp only [List.headD, List.map]
  rw [f_eval_ten_y]
  dsimp only [List.headD, List.map]
  rw [f_eval_ten_y]
  dsimp only [List.headD, List.map]
  congr 1
  simp only [qadd_eq, qmul_eq, qdiv_eq]
  norm_num [Rat.mkRat_eq_divInt, Rat.divInt_eq_div]
  ring_nf

theorem phi_pos : (0 : ℚ) < (1345627 : ℚ)/1280000 := by norm_num

theorem phi_one_le : (1 : ℚ) ≤ (1345627 : ℚ)/1280000 := by norm_num

set_option exponentiation.threshold 600 in
theorem phi_pow_461_big : (10000000000 : ℚ) < ((1345627 : ℚ)/1280000) ^ 461 := by
  have hn : (10000000000 : ℕ) * 1280000 ^ 461 < 1345627 ^ 461 := by decide
  rw [div_pow, lt_div_iff (by positivity)]
  calc (10000000000 : ℚ) * 1280000 ^ 461
      = ((10000000000 * 1280000 ^ 461 : ℕ) : ℚ) := by push_cast; ring
    _ < ((1345627 ^ 461 : ℕ) : ℚ) := by exact_mod_cast hn
    _ = (1345627 : ℚ) ^ 461 := by push_cast; ring

set_option exponentiation.threshold 600 in
theorem phi_pow_460_small : ((1345627 : ℚ)/1280000) ^ 460 ≤ (10000000000 : ℚ) := by
  have hn : (1345627 : ℕ) ^ 460 ≤ 10000000000 * 1280000 ^ 460 := by decide
  rw [div_pow, div_le_iff (by positivity)]
  calc (1345627 : ℚ) ^ 460
      = ((1345627 ^ 460 : ℕ) : ℚ) := by push_cast; ring
    _ ≤ ((10000000000 * 1280000 ^ 460 : ℕ) : ℚ) := by exact_mod_cast hn
    _ = (10000000000 : ℚ) * 1280000 ^ 460 := by push_cast; ring

theorem noExplodeGuard (k : ℕ) (hk : k ≤ 460) :
    (([((1345627 : ℚ)/1280000) ^ k]).any
      (fun v => mkRat 10000000000 1 < qabs v)) = false := by
  simp only [List.any_cons, List.any_nil, Bool.or_false, decide_eq_false_iff_not, not_lt]
  rw [qabs_eq, abs_of_pos (pow_pos phi_pos k), Rat.mkRat_one]
  calc ((1345627 : ℚ)/1280000) ^ k
      ≤ ((1345627 : ℚ)/1280000) ^ 460 := pow_le_pow_right phi_one_le hk
    _ ≤ (10000000000 : ℚ) := phi_pow_460_small
    _ = ((10000000000 : ℤ) : ℚ) := by push_cast; ring

theorem explodeGuard461 :
    (([((1345627 : ℚ)/1280000) ^ 461]).any
      (fun v => mkRat 10000000000 1 < qabs v)) = true := by
  simp only [List.any_cons, List.any_nil, Bool.or_false, decide_eq_true_eq]
  rw [qabs_eq, abs_of_pos (pow_pos phi_pos 461), Rat.mkRat_one]
  calc (((10000000000 : ℤ)) : ℚ) = (10000000000 : ℚ) := by push_cast; ring
    _ < ((1345627 : ℚ)/1280000) ^ 461 := phi_pow_461_big

theorem noBreakGuard (n : ℕ) (hn : n ≤ 460) :
    ¬ (qsub (mkRat 5 1) (mkRat 1 10000000000) ≤
        qadd ((n : ℚ) * ((1 : ℚ)/200)) ((1 : ℚ)/200)) := by
  rw [not_le, qadd_eq, qsub_eq, Rat.mkRat_one]
  have hcast : ((n : ℚ)) ≤ 460 := by exact_mod_cast hn
  have hmk : (mkRat 1 10000000000 : ℚ) = 1/10000000000 := by
    rw [Rat.mkRat_eq_divInt]
    norm_num [Rat.divInt_eq_div]
  rw [hmk]
  push_cast
  nlinarith

theorem loopExplodes (I : MathInterp) :
    ∀ (m n : ℕ) (ts : List ℚ) (ys : List (List ℚ)) (steps : ℤ),
      m = 461 - n → n ≤ 460 →
      ∃ r, rkLoop (odeEvaluate I (.mulE [.intE 10, .symE "y"]) ["t", "y"])
          ((1 : ℚ)/200) (mkRat 5 1) (1000 - n) ((n : ℚ) * ((1 : ℚ)/200))
          [((1345627 : ℚ)/1280000) ^ n] steps ts ys = .ok r ∧
        r.success = false ∧ r.message = "Solution exploded (exceeded threshold)" := by
  intro m
  induction m with
  | zero => intro n ts ys steps hm hn; omega
  | succ m ih =>
    intro n ts ys steps hm hn
    have hfuel : 1000 - n = (999 - n) + 1 := by omega
    rw [hfuel, rkLoop, rkStep_ten_y]
    dsimp only
    rw [show ((1345627 : ℚ)/1280000) * ((1345627 : ℚ)/1280000) ^ n =
        ((1345627 : ℚ)/1280000) ^ (n + 1) from by rw [pow_succ, mul_comm]]
    by_cases hn460 : n = 460
    · subst hn460
      rw [if_pos explodeGuard461]
      exact ⟨_, rfl, rfl, rfl⟩
    · rw [if_neg (by rw [noExplodeGuard (n + 1) (by omega)]; simp)]
      rw [if_neg (noBreakGuard n hn)]
      rw [show qadd ((n : ℚ) * ((1 : ℚ)/200)) ((1 : ℚ)/200) =
          (((n + 1 : ℕ)) : ℚ) * ((1 : ℚ)/200) from by rw [qadd_eq]; push_cast; ring]
      rw [show (999 - n) = 1000 - (n + 1) from by omega]
      exact ih (n + 1) _ _ _ (by omega) (by omega)

/-- C8: after every RK4 step each state component is checked against the
absolute threshold `1e10`, and any exceedance makes the loop return
`success = false` with message "Solution exploded (exceeded threshold)"
(first conjunct, for every driver state); in particular
`solve_ivp("10*y", 0, 5, [1], ["t","y"], rtol, atol, 1000)` returns
`success = false` with exactly that message (the state reaches
`φ^461 ≈ 1.02·10^10 > 10^10` at step 461 of at most 1000). -/
theorem C8_solve_ivp_explosion :
    (∀ (f : ℚ → List ℚ → Except OdeFail (List ℚ)) (h t1 : ℚ) (fuel : ℕ)
      (t : ℚ) (y : List ℚ) (steps : ℤ) (ts : List ℚ) (ys : List (List ℚ)) (y2 : List ℚ),
      rkStep f h t y = .ok y2 →
      (y2.any fun v => mkRat 10000000000 1 < qabs v) = true →
      rkLoop f h t1 (fuel + 1) t y steps ts ys =
        .ok ⟨false, ts, ys, steps + 1, "Solution exploded (exceeded threshold)"⟩) ∧
    (∀ (I : MathInterp) (rtol atol : ℚ),
      ∃ r, solve_ivp I "10*y" 0 (mkRat 5 1) [1] ["t", "y"] rtol atol 1000 = .ok r ∧
        r.success = false ∧ r.message = "Solution exploded (exceeded threshold)") := by
  constructor
  · intro f h t1 fuel t y steps ts ys y2 hstep hexp
    rw [rkLoop, hstep]
    dsimp only
    rw [if_pos hexp]
  · intro I rtol atol
    rw [solve_ivp, if_neg (by norm_num [Rat.mkRat_one]), if_neg (by simp),
      if_neg (by simp), if_neg (by norm_num),
      show parse "10*y" = .ok (.mulE [.intE 10, .symE "y"]) from by decide]
    show ∃ r, rkLoop (odeEvaluate I (.mulE [.intE 10, .symE "y"]) ["t", "y"])
        (qdiv (qsub (mkRat 5 1) 0) (mkRat 1000 1)) (mkRat 5 1)
        (1000 : ℤ).toNat 0 [1] 0 [0] [[1]] = .ok r ∧
      r.success = false ∧ r.message = "Solution exploded (exceeded threshold)"
    rw [show qdiv (qsub (mkRat 5 1) 0) (mkRat 1000 1) = (1 : ℚ)/200 from by
      rw [qdiv_eq, qsub_eq, Rat.mkRat_one, Rat.mkRat_one]
      push_cast
      norm_num]
    obtain ⟨r, hr, hs, hm⟩ := loopExplodes I 461 0 [(0 : ℚ)] [[(1 : ℚ)]] 0 (by omega) (by omega)
    rw [Nat.cast_zero, zero_mul, pow_zero] at hr
    exact ⟨r, hr, hs, hm⟩

/-- C8 witness: the explosion return of the loop at a concrete state whose
step leaves the threshold behind. -/
theorem C8_solve_ivp_explosion_witness :
    rkLoop (fun _ _ => .ok [mkRat 100000000000 1]) 1 (mkRat 5 1) (0 + 1) 0 [0] 0 [] [] =
      .ok ⟨false, [], [], 0 + 1, "Solution exploded (exceeded threshold)"⟩ :=
  C8_solve_ivp_explosion.1 (fun _ _ => .ok [mkRat 100000000000 1]) 1 (mkRat 5 1) 0 0 [0] 0 [] []
    [mkRat 100000000000 1] (by decide) (by decide)

end MathLLM
